import Mathlib

/-!
Verification of the csvbuddy CSV codec (github.com/askeladdk/csvbuddy).

The development shallowly embeds the library's core: the Go strconv
primitives the converters call (ParseBool / ParseUint / ParseInt /
FormatInt), the modern reflection layer of reflect.go (parseTag, the
converter codecs, appendStructFields, headerIndices, headerOf, Header,
innerTypeOf) and the record decode driver of decoder.go (mapHeader,
decodeField, decodeFunc, Decode).

Go machine integers are modelled as Nat/Int with explicit reduction
modulo 2^64 where uint64 overflow matters; Go byte-level character
tests are modelled on Unicode code points, which agrees with the byte
semantics on ASCII and classifies every non-ASCII character as a
syntax error exactly as the byte loop does.  Fallible Go code returns
Except; a Go runtime panic is modelled as a dedicated error value.
-/

namespace Csvbuddy

/-! ## Go strconv primitives (hand translation of the Go standard library
functions used by the codecs: ParseBool, ParseUint, ParseInt, FormatBool,
FormatInt, FormatUint). -/

/-- Error values of strconv (NumError.Err plus the base/bitSize errors). -/
inductive NumErr where
  | synErr      -- strconv.ErrSyntax
  | rangeErr    -- strconv.ErrRange
  | baseErr     -- "invalid base" error
  | bitSizeErr  -- "invalid bit size" error
deriving DecidableEq, Repr

/-- 2^64, the modulus of Go uint64 arithmetic. -/
def U64 : Nat := 2 ^ 64

/-- Go strconv lower(c) = c | ('x' - 'X') on a byte, modelled on code points. -/
def lowerN (n : Nat) : Nat := n ||| 32

/-- strconv.ParseBool. -/
def goParseBool (s : String) : Except NumErr Bool :=
  if s = "1" ∨ s = "t" ∨ s = "T" ∨ s = "true" ∨ s = "TRUE" ∨ s = "True" then .ok true
  else if s = "0" ∨ s = "f" ∨ s = "F" ∨ s = "false" ∨ s = "FALSE" ∨ s = "False" then .ok false
  else .error .synErr

/-- strconv.FormatBool. -/
def goFormatBool (b : Bool) : String :=
  if b then "true" else "false"

/-- The scanning loop of strconv's underscoreOK: `saw` is the class of the
last character seen ('^' beginning, '0' digit, '_' underscore, '!' other). -/
def uscoreLoop (hex : Bool) : List Char → Char → Bool
  | [], saw => saw ≠ '_'
  | c :: cs, saw =>
    let cn := c.toNat
    if (48 ≤ cn ∧ cn ≤ 57) ∨ (hex ∧ 97 ≤ lowerN cn ∧ lowerN cn ≤ 102) then
      uscoreLoop hex cs '0'
    else if c = '_' then
      if saw ≠ '0' then false else uscoreLoop hex cs '_'
    else if saw = '_' then false
    else uscoreLoop hex cs '!'

/-- strconv.underscoreOK: reports whether underscores in s are allowed. -/
def underscoreOK (s : List Char) : Bool :=
  -- optional sign
  let s1 := match s with
    | c :: rest => if c = '-' ∨ c = '+' then rest else s
    | [] => s
  -- optional base prefix 0b / 0o / 0x (counts as a digit)
  match s1 with
  | c0 :: c1 :: rest =>
    if c0 = '0' ∧ (lowerN c1.toNat = 98 ∨ lowerN c1.toNat = 111 ∨ lowerN c1.toNat = 120) then
      uscoreLoop (lowerN c1.toNat = 120) rest '0'
    else uscoreLoop false s1 '^'
  | _ => uscoreLoop false s1 '^'

/-- The digit classification switch in ParseUint's loop: decimal digits
and letters (after lowering); none is the syntax-error default. -/
def charDigitVal (cn : Nat) : Option Nat :=
  if 48 ≤ cn ∧ cn ≤ 57 then some (cn - 48)
  else if 97 ≤ lowerN cn ∧ lowerN cn ≤ 122 then some (lowerN cn - 97 + 10)
  else none

/-- The digit-accumulation loop of strconv.ParseUint.  Returns the
accumulated value, the underscores flag, and the error if any; on a range
error the returned value is maxVal and on a syntax error it is 0, exactly
as in the Go source. -/
def puLoop (b cutoff maxVal : Nat) (base0 : Bool) :
    List Char → Nat → Bool → Nat × Bool × Option NumErr
  | [], n, us => (n, us, none)
  | c :: cs, n, us =>
    let cn := c.toNat
    if cn = 95 ∧ base0 then puLoop b cutoff maxVal base0 cs n true
    else
      match charDigitVal cn with
      | none => (0, us, some .synErr)
      | some d =>
        if b ≤ d then (0, us, some .synErr)
        else if cutoff ≤ n then (maxVal, us, some .rangeErr)
        else
          let nb := n * b % U64
          let n1 := (nb + d) % U64
          if n1 < nb ∨ maxVal < n1 then (maxVal, us, some .rangeErr)
          else puLoop b cutoff maxVal base0 cs n1 us

/-- Tail of strconv.ParseUint after base and bit size are validated:
s0 is the original string (for the underscore check), s the remaining
digits, b the effective base, w the effective bit size. -/
def parseUintAfterBits (s0 s : List Char) (b : Nat) (base0 : Bool) (w : Nat) :
    Nat × Option NumErr :=
  let cutoff := (U64 - 1) / b + 1
  let maxVal := 2 ^ w - 1
  match puLoop b cutoff maxVal base0 s 0 false with
  | (n, us, none) => if us ∧ ¬ underscoreOK s0 then (0, some .synErr) else (n, none)
  | (n, _, some e) => (n, some e)

/-- Bit-size validation step of strconv.ParseUint (bitSize 0 means the
machine word size, which is 64). -/
def parseUintAfterBase (s0 s : List Char) (b : Nat) (base0 : Bool) (bitSize : Int) :
    Nat × Option NumErr :=
  if bitSize = 0 then parseUintAfterBits s0 s b base0 64
  else if bitSize < 0 ∨ 64 < bitSize then (0, some .bitSizeErr)
  else parseUintAfterBits s0 s b base0 bitSize.toNat

/-- strconv.ParseUint, returning the (value, error) pair of the Go function
(ParseInt inspects the value accompanying a range error). -/
def parseUintRaw (sIn : List Char) (base bitSize : Int) : Nat × Option NumErr :=
  if sIn.isEmpty then (0, some .synErr)
  else if 2 ≤ base ∧ base ≤ 36 then
    parseUintAfterBase sIn sIn base.toNat false bitSize
  else if base = 0 then
    -- look for octal / hex prefix
    match sIn with
    | c0 :: rest =>
      if c0 = '0' then
        match rest with
        | c1 :: rest2 =>
          if 3 ≤ sIn.length ∧ lowerN c1.toNat = 98 then
            parseUintAfterBase sIn rest2 2 true bitSize
          else if 3 ≤ sIn.length ∧ lowerN c1.toNat = 111 then
            parseUintAfterBase sIn rest2 8 true bitSize
          else if 3 ≤ sIn.length ∧ lowerN c1.toNat = 120 then
            parseUintAfterBase sIn rest2 16 true bitSize
          else parseUintAfterBase sIn (c1 :: rest2) 8 true bitSize
        | [] => parseUintAfterBase sIn [] 8 true bitSize
      else parseUintAfterBase sIn sIn 10 true bitSize
    | [] => (0, some .synErr)
  else (0, some .baseErr)

/-- strconv.ParseUint as an Except (the form the uint codec consumes:
it only uses the value when the error is nil). -/
def goParseUint (s : String) (base bitSize : Int) : Except NumErr Nat :=
  match parseUintRaw s.data base bitSize with
  | (n, none) => .ok n
  | (_, some e) => .error e

/-- Range check tail of strconv.ParseInt. -/
def parseIntRange (neg : Bool) (un : Nat) (bitSize : Int) : Except NumErr Int :=
  let w : Nat := if bitSize = 0 then 64 else bitSize.toNat
  let cutoff : Nat := 2 ^ (w - 1)
  if ¬ neg ∧ cutoff ≤ un then .error .rangeErr
  else if neg ∧ cutoff < un then .error .rangeErr
  else .ok (if neg then -(un : Int) else (un : Int))

/-- The unsigned-conversion stage of strconv.ParseInt: a non-range error
from ParseUint propagates; a range error (ParseUint then yielded maxVal)
and a clean value both fall through to the signed range check. -/
def goParseIntAfterSign (neg : Bool) (s' : List Char) (base bitSize : Int) :
    Except NumErr Int :=
  match parseUintRaw s' base bitSize with
  | (un, none) => parseIntRange neg un bitSize
  | (un, some e) => if e ≠ .rangeErr then .error e else parseIntRange neg un bitSize

/-- strconv.ParseInt: pick off the leading sign, then convert. -/
def goParseInt (s : String) (base bitSize : Int) : Except NumErr Int :=
  match s.data with
  | [] => .error .synErr
  | c0 :: rest =>
    if c0 = '+' then goParseIntAfterSign false rest base bitSize
    else if c0 = '-' then goParseIntAfterSign true rest base bitSize
    else goParseIntAfterSign false (c0 :: rest) base bitSize

/-- The digit table "0123456789abcdefghijklmnopqrstuvwxyz" of strconv. -/
def goDigitChar (d : Nat) : Char :=
  Char.ofNat (if d < 10 then 48 + d else 87 + d)

/-- Digit expansion of strconv's formatBits loop (most significant first). -/
def natToBaseDigits (b u : Nat) : List Char :=
  if _h : 2 ≤ b ∧ b ≤ u then
    natToBaseDigits b (u / b) ++ [goDigitChar (u % b)]
  else [goDigitChar u]
termination_by u
decreasing_by
  exact Nat.div_lt_self (by omega) (by omega)

/-- strconv.FormatInt; none models the Go panic on an illegal base. -/
def goFormatInt (v : Int) (base : Int) : Option String :=
  if 2 ≤ base ∧ base ≤ 36 then
    some (String.mk ((if v < 0 then ['-'] else []) ++ natToBaseDigits base.toNat v.natAbs))
  else none

/-- strconv.FormatUint; none models the Go panic on an illegal base. -/
def goFormatUint (u : Nat) (base : Int) : Option String :=
  if 2 ≤ base ∧ base ≤ 36 then
    some (String.mk (natToBaseDigits base.toNat u))
  else none

/-! ## Reflection model.

Go types and values of the kinds the codecs of reflect.go support.  The
float, complex and encoding.TextMarshaler kinds are outside this value
universe (their conversions go through IEEE-754 formatting or arbitrary
user code, which a shallow embedding cannot evaluate); every definition
below translates the corresponding Go source restricted to this universe. -/

mutual
inductive GoTy where
  | bool | i8 | i16 | i32 | i64 | intT | u8 | u16 | u32 | u64 | uintT
  | str
  | bytes                     -- []byte
  | ptr (t : GoTy)
  | slice (t : GoTy)          -- a non-byte slice (no converter exists for it)
  | strct (fs : GoFields)
inductive GoFields where
  | nil
  | cons (fname : String) (tag : Option String) (exported anonymous : Bool)
      (ty : GoTy) (rest : GoFields)
end

/-- reflect.Kind of the types in the universe ([]byte has kind Slice). -/
inductive GoKind where
  | kBool | kInt8 | kInt16 | kInt32 | kInt64 | kInt
  | kUint8 | kUint16 | kUint32 | kUint64 | kUint
  | kString | kPtr | kSlice | kStrct
deriving DecidableEq, Repr

/-- reflect.Type.Kind. -/
def tyKind : GoTy → GoKind
  | .bool => .kBool
  | .i8 => .kInt8
  | .i16 => .kInt16
  | .i32 => .kInt32
  | .i64 => .kInt64
  | .intT => .kInt
  | .u8 => .kUint8
  | .u16 => .kUint16
  | .u32 => .kUint32
  | .u64 => .kUint64
  | .uintT => .kUint
  | .str => .kString
  | .bytes => .kSlice
  | .ptr _ => .kPtr
  | .slice _ => .kSlice
  | .strct _ => .kStrct

/-- reflect.Type.Elem, used only after a Ptr/Slice kind guard (Go panics on
other kinds; those calls are unreachable in this development). -/
def tyElem : GoTy → GoTy
  | .ptr t => t
  | .slice t => t
  | .bytes => .u8
  | t => t

/-- innerTypeOf of reflect.go: follow the kind chain, returning nil (none)
on the first mismatch. -/
def innerTypeOf (t : GoTy) : List GoKind → Option GoTy
  | [] => none
  | [k] => if tyKind t = k then some t else none
  | k :: ks => if tyKind t = k then innerTypeOf (tyElem t) ks else none

/-- Values of the universe.  A Go pointer value is nil or points to a
value; nesting models pointer-to-pointer. -/
inductive GoVal where
  | boolV (b : Bool)
  | intV (v : Int)
  | uintV (v : Nat)
  | strV (s : String)
  | bytesV (s : String)
  | ptrNil
  | ptrSome (v : GoVal)
deriving DecidableEq, Repr

/-- reflect.New(t).Elem(): the zero value of a type.  The slice/struct
cases are unreachable (no converter is ever built for those types). -/
def zeroVal : GoTy → GoVal
  | .bool => .boolV false
  | .i8 | .i16 | .i32 | .i64 | .intT => .intV 0
  | .u8 | .u16 | .u32 | .u64 | .uintT => .uintV 0
  | .str => .strV ""
  | .bytes => .bytesV ""
  | .ptr _ => .ptrNil
  | .slice _ => .ptrNil
  | .strct _ => .ptrNil

/-! ## Tag parsing (parseTag of reflect.go). -/

/-- A Go runtime panic raised while parsing a tag. -/
inductive TagPanic where
  | idxOutOfRange
deriving DecidableEq, Repr

/-- strings.IndexByte(tag, \x27,\x27) followed by the two slicings of
parseTag: the text before the first comma and, when a comma exists, the
text after it. -/
def takeToComma : List Char → List Char × Option (List Char)
  | [] => ([], none)
  | c :: rest =>
    if c = ',' then ([], some rest)
    else
      let (v, r) := takeToComma rest
      (c :: v, r)

/-- List-level prefix test (strings.HasPrefix). -/
def listStartsWith : List Char → List Char → Bool
  | [], _ => true
  | _ :: _, [] => false
  | p :: ps, c :: cs => p = c && listStartsWith ps cs

/-- strings.Contains. -/
def containsSub (sub : List Char) : List Char → Bool
  | [] => sub.isEmpty
  | c :: rest => listStartsWith sub (c :: rest) || containsSub sub rest

/-- strconv.Atoi (equivalent to ParseInt(s, 10, 0); bit size 0 is the
64-bit machine word), with errors collapsed to none as in parseTag. -/
def goAtoi (s : List Char) : Option Int :=
  match goParseInt (String.mk s) 10 0 with
  | .ok n => some n
  | .error _ => none

/-- One switch iteration of parseTag over a segment val, updating
(base, prec, fmt).  The fmt= case indexes val[4] under a guard of
len(val) >= 4, so the segment "fmt=" (length exactly 4) makes the index
out of range: a Go runtime panic, modelled as an error. -/
def applyTagSeg (val : List Char) (acc : Int × Int × Char) :
    Except TagPanic (Int × Int × Char) :=
  if listStartsWith "base=".data val then
    match goAtoi (val.drop 5) with
    | some n => .ok (n, acc.2.1, acc.2.2)
    | none => .ok acc
  else if listStartsWith "prec=".data val then
    match goAtoi (val.drop 5) with
    | some n => .ok (acc.1, n, acc.2.2)
    | none => .ok acc
  else if listStartsWith "fmt=".data val then
    if 4 ≤ val.length then
      match val.get? 4 with
      | none => .error .idxOutOfRange
      | some c =>
        if ("beEfgGxX".data).contains c then .ok (acc.1, acc.2.1, c)
        else .ok acc
    else .ok acc
  else .ok acc

/-- The parameter loop of parseTag (for tag != ""), rendered as a
single pass: cur is the comma-free segment read so far.  The only
difference from the IndexByte/reslice loop of the source is that after
a trailing comma this renders a final empty segment, which the switch
ignores, where the Go loop simply stops. -/
def parseTagLoop : List Char → List Char → Int × Int × Char → Except TagPanic (Int × Int × Char)
  | cur, [], acc => applyTagSeg cur acc
  | cur, c :: cs, acc =>
    if c = ',' then
      match applyTagSeg cur acc with
      | .error e => .error e
      | .ok acc' => parseTagLoop [] cs acc'
    else parseTagLoop (cur ++ [c]) cs acc

/-- parseTag of reflect.go: (name, base, prec, fmt) with defaults
(10, -1, \x27f\x27); an error is a Go runtime panic. -/
def parseTag (tag : String) : Except TagPanic (String × Int × Int × Char) :=
  match takeToComma tag.data with
  | (name, none) => .ok (String.mk name, 10, -1, 'f')
  | (name, some rest) =>
    match parseTagLoop [] rest (10, -1, 'f') with
    | .ok (b, p, f) => .ok (String.mk name, b, p, f)
    | .error e => .error e

/-! ## Converters (the codec types of reflect.go). -/

/-- The non-pointer codecs of reflect.go restricted to the universe
(boolCodec, intCodec, uintCodec, stringCodec, byteSliceCodec). -/
inductive BaseConv where
  | boolC
  | intC (bitSize : Nat) (base : Int)
  | uintC (bitSize : Nat) (base : Int)
  | strC
  | bytesC
deriving DecidableEq, Repr

/-- A converter as built by newValueConverter: a base codec, possibly
wrapped in ptrCodec. -/
inductive Conv where
  | plain (c : BaseConv)
  | ptrC (c : BaseConv)
deriving DecidableEq, Repr

/-- Errors of descriptor resolution; panicked models a Go runtime panic
(from parseTag, or from calling NumField on a nil type). -/
inductive ResolveErr where
  | dupField (name : String)       -- "duplicate field name ..."
  | cannotDecode (name : String)   -- "cannot decode field ..."
  | panicked
deriving DecidableEq, Repr

/-- The pointer-unwrap loop at the top of newValueConverter's Ptr case. -/
def stripPtr : GoTy → GoTy
  | .ptr t => stripPtr t
  | t => t

/-- newValueConverter of reflect.go on the universe.  prec and ffmt only
parameterize the float/complex codecs, which lie outside the universe. -/
def newValueConverter (t : GoTy) (name : String) (base _prec : Int) (_ffmt : Char) :
    Except ResolveErr Conv :=
  match t with
  | .bool => .ok (.plain .boolC)
  | .i8 => .ok (.plain (.intC 8 base))
  | .i16 => .ok (.plain (.intC 16 base))
  | .i32 => .ok (.plain (.intC 32 base))
  | .i64 => .ok (.plain (.intC 64 base))
  | .intT => .ok (.plain (.intC 64 base))
  | .ptr t0 =>
    match stripPtr t0 with
    | .bool => .ok (.ptrC .boolC)
    | .i8 => .ok (.ptrC (.intC 8 base))
    | .i16 => .ok (.ptrC (.intC 16 base))
    | .i32 => .ok (.ptrC (.intC 32 base))
    | .i64 => .ok (.ptrC (.intC 64 base))
    | .intT => .ok (.ptrC (.intC 64 base))
    | .str => .ok (.ptrC .strC)
    | .u8 => .ok (.ptrC (.uintC 8 base))
    | .u16 => .ok (.ptrC (.uintC 16 base))
    | .u32 => .ok (.ptrC (.uintC 32 base))
    | .u64 => .ok (.ptrC (.uintC 64 base))
    | .uintT => .ok (.ptrC (.uintC 64 base))
    | .bytes => .ok (.ptrC .bytesC)
    | _ => .error (.cannotDecode name)
  | .str => .ok (.plain .strC)
  | .u8 => .ok (.plain (.uintC 8 base))
  | .u16 => .ok (.plain (.uintC 16 base))
  | .u32 => .ok (.plain (.uintC 32 base))
  | .u64 => .ok (.plain (.uintC 64 base))
  | .uintT => .ok (.plain (.uintC 64 base))
  | .bytes => .ok (.plain .bytesC)
  | _ => .error (.cannotDecode name)

/-- Decode of a base codec.  Each SetX overwrites the target completely,
so the previous field value is not an input. -/
def baseDecode (c : BaseConv) (s : String) : Except NumErr GoVal :=
  match c with
  | .boolC => (goParseBool s).map .boolV
  | .intC w b => (goParseInt s b (w : Int)).map .intV
  | .uintC w b => (goParseUint s b (w : Int)).map .uintV
  | .strC => .ok (.strV s)
  | .bytesC => .ok (.bytesV s)

/-- Encode of a base codec; none models a Go panic (FormatInt/FormatUint
on an illegal base, or a reflect accessor on a value of the wrong kind,
which cannot happen for converters bound by the resolver). -/
def baseEncode (c : BaseConv) (v : GoVal) : Option String :=
  match c, v with
  | .boolC, .boolV b => some (goFormatBool b)
  | .intC _ b, .intV n => goFormatInt n b
  | .uintC _ b, .uintV n => goFormatUint n b
  | .strC, .strV s => some s
  | .bytesC, .bytesV s => some s
  | _, _ => none

/-- The allocation loop of ptrCodec.Decode for a non-empty string: while
the type is a pointer, allocate (reflect.New) and descend; then apply the
inner codec to the freshly zeroed target. -/
def ptrDecodeChain (bc : BaseConv) : GoTy → String → Except NumErr GoVal
  | .ptr t', s => (ptrDecodeChain bc t' s).map .ptrSome
  | _, s => baseDecode bc s

/-- Decode of a converter: t is the static type of the target field and
v its current value (returned unchanged by ptrCodec on empty input). -/
def convDecode (c : Conv) (t : GoTy) (v : GoVal) (s : String) : Except NumErr GoVal :=
  match c with
  | .plain bc => baseDecode bc s
  | .ptrC bc => if s = "" then .ok v else ptrDecodeChain bc t s

/-- The unwrap loop of ptrCodec.Encode: a nil pointer at any depth
encodes to the empty string. -/
def ptrEncodeChain (bc : BaseConv) : GoVal → Option String
  | .ptrNil => some ""
  | .ptrSome v' => ptrEncodeChain bc v'
  | v => baseEncode bc v

/-- Encode of a converter. -/
def convEncode (c : Conv) (v : GoVal) : Option String :=
  match c with
  | .plain bc => baseEncode bc v
  | .ptrC bc => ptrEncodeChain bc v

/-! ## Descriptor resolution (structField / appendStructFields /
structFieldsOf / headerOf / Header of reflect.go). -/

/-- structField of reflect.go: nested field index path, resolved column
name and bound converter (the converter also carries the static field
type so that decoding can mirror reflect.Value typing). -/
structure FieldA where
  index : List Nat
  name : String
  conv : Conv
  fieldTy : GoTy

/-- The struct tag is checked for the literal substring ",inline"
(strings.Contains on the raw tag; Tag.Get of an absent tag is ""). -/
def hasInlineTag (tag : Option String) : Bool :=
  containsSub ",inline".data (tag.getD "").data

/-- The tail of appendStructFields for one plain (non-inline) field
once the tag is parsed: empty name falls back to the field identifier,
"-" drops the field, duplicate names are rejected, and a converter is
bound before the descriptor is appended. -/
def appendResolvedField (fname nm0 : String) (base prec : Int) (ffmt : Char)
    (ty : GoTy) (index : List Nat) (i : Nat) (acc : List FieldA) (names : List String) :
    Except ResolveErr (List FieldA × List String) :=
  let nm := if nm0 = "" then fname else nm0
  if nm = "-" then .ok (acc, names)
  else if names.contains nm then .error (.dupField nm)
  else
    match newValueConverter ty nm base prec ffmt with
    | .error e => .error e
    | .ok codec => .ok (acc ++ [⟨index ++ [i], nm, codec, ty⟩], names ++ [nm])

/-- The body of appendStructFields for one plain (non-inline) field:
parse the csv tag when present (a parseTag panic propagates), then
resolve and append. -/
def appendOneField (fname : String) (tag : Option String) (ty : GoTy)
    (index : List Nat) (i : Nat) (acc : List FieldA) (names : List String) :
    Except ResolveErr (List FieldA × List String) :=
  match (match tag with
         | some tg => parseTag tg
         | none => Except.ok ("", 10, -1, 'f')) with
  | .error _ => .error .panicked
  | .ok (nm0, base, prec, ffmt) =>
    appendResolvedField fname nm0 base prec ffmt ty index i acc names

/-- appendStructFields of reflect.go: walk the fields in declaration
order (i is the field position within the current struct), recursing into
anonymous or ",inline"-tagged sub-structs, threading the accumulated
descriptor list and the set of names seen so far. -/
def appendStructFields :
    GoFields → List Nat → Nat → List FieldA → List String →
    Except ResolveErr (List FieldA × List String)
  | .nil, _, _, acc, names => .ok (acc, names)
  | .cons fname tag exported anonymous ty rest, index, i, acc, names =>
    if exported then
      match ty, anonymous || hasInlineTag tag with
      | .strct fs', true =>
        match appendStructFields fs' (index ++ [i]) 0 acc names with
        | .error e => .error e
        | .ok (acc', names') => appendStructFields rest index (i + 1) acc' names'
      | _, _ =>
        match appendOneField fname tag ty index i acc names with
        | .error e => .error e
        | .ok (acc', names') => appendStructFields rest index (i + 1) acc' names'
    else appendStructFields rest index (i + 1) acc names

/-- structFieldsOf of reflect.go (the cache is pure memoization and is
not modelled).  Calling it with a non-struct type makes reflect's
NumField panic; the only such call site is headerOf on a nil type. -/
def structFieldsOf : GoTy → Except ResolveErr (List FieldA)
  | .strct fs => (appendStructFields fs [] 0 [] []).map (·.1)
  | _ => .error .panicked

/-- The duplicate-scan over a header performed by headerIndices and
mapHeader (membership in the names set built so far). -/
def dupName : List String → List String → Option String
  | [], _ => none
  | h :: rest, seen => if seen.contains h then some h else dupName rest (h :: seen)

/-- Binding errors. -/
inductive BindErr where
  | dupHeader (name : String)   -- "duplicate header name ..."
deriving DecidableEq, Repr

/-- The inner loop of headerIndices: all descriptor positions j whose
name matches column col at header position i, appended as i, j pairs. -/
def matchPairs (col : String) (i : Nat) : Nat → List FieldA → List Nat
  | _, [] => []
  | j, f :: fs => (if f.name = col then [i, j] else []) ++ matchPairs col i (j + 1) fs

/-- The outer loop of headerIndices. -/
def headerPairs (fields : List FieldA) : Nat → List String → List Nat
  | _, [] => []
  | i, col :: rest => matchPairs col i 0 fields ++ headerPairs fields (i + 1) rest

/-- headerIndices of reflect.go: duplicate header detection followed by
the flattened (column index, descriptor index) pair list. -/
def headerIndices (header : List String) (fields : List FieldA) :
    Except BindErr (List Nat) :=
  match dupName header [] with
  | some h => .error (.dupHeader h)
  | none => .ok (headerPairs fields 0 header)

/-- headerOf of reflect.go; the argument is none when innerTypeOf
returned nil, in which case structFieldsOf dereferences a nil type
(NumField) and panics. -/
def headerOf : Option GoTy → Except ResolveErr (List String)
  | none => .error .panicked
  | some t => (structFieldsOf t).map (List.map FieldA.name)

/-- Header of reflect.go.  The argument models an interface value: none
is a nil interface (reflect.TypeOf gives a nil type, whose Kind() call in
innerTypeOf panics); otherwise the dynamic type together with whether the
underlying pointer is nil — only the type is ever inspected. -/
def Header : Option (GoTy × Bool) → Except ResolveErr (List String)
  | none => .error .panicked
  | some (t, _isNil) => headerOf (innerTypeOf t [.kPtr, .kSlice, .kStrct])

/-! ## The record decode driver (decoder.go).

decoder.go belongs to the revision whose reflection layer collapses
integer kinds (its kindOf maps every int width to Int64, every uint
width to Uint64) and uses the whole csv tag verbatim as the column name.
The driver below translates decoder.go together with that revision's
kindOf / structFieldsOf.  The float, complex and TextUnmarshaler kinds
are outside the value universe as before. -/

/-- The collapsed field kinds of that revision's kindOf (byteSlice and
textUnmarshaler are synthetic kinds above the reflect ones). -/
inductive KindB where
  | kbBool | kbInt64 | kbUint64 | kbString | kbPtr | kbByteSlice | kbInvalid
deriving DecidableEq, Repr

/-- kindOf of that revision on the universe. -/
def kindOfB : GoTy → KindB
  | .bool => .kbBool
  | .str => .kbString
  | .i8 | .i16 | .i32 | .i64 | .intT => .kbInt64
  | .u8 | .u16 | .u32 | .u64 | .uintT => .kbUint64
  | .ptr t => if kindOfB t = .kbInvalid then .kbInvalid else .kbPtr
  | .bytes => .kbByteSlice
  | .slice _ => .kbInvalid
  | .strct _ => .kbInvalid

/-- structField of that revision: single-level index, collapsed kind,
column name. -/
structure FieldB where
  index : List Nat
  kind : KindB
  name : String
deriving DecidableEq, Repr

/-- Resolution errors of that revision's structFieldsOf. -/
inductive ResolveErrB where
  | dupField (name : String)         -- "duplicate field name ..."
  | cannotDecodeType                 -- "cannot decode field of type ..."
deriving DecidableEq, Repr

/-- structFieldsOf of that revision: names come verbatim from the csv
tag (no parseTag), kinds from kindOf, with duplicate and invalid-kind
rejection. -/
def appendFieldsB : GoFields → Nat → List FieldB → List String →
    Except ResolveErrB (List FieldB × List String)
  | .nil, _, acc, names => .ok (acc, names)
  | .cons fname tag exported _anonymous ty rest, i, acc, names =>
    if exported then
      let nm := match tag with
        | some tg => tg
        | none => fname
      if nm = "-" then appendFieldsB rest (i + 1) acc names
      else if names.contains nm then .error (.dupField nm)
      else
        let kind := kindOfB ty
        if kind = .kbInvalid then .error .cannotDecodeType
        else appendFieldsB rest (i + 1) (acc ++ [⟨[i], kind, nm⟩]) (names ++ [nm])
    else appendFieldsB rest (i + 1) acc names

/-- Field conversion errors inside a row; panicked models the reflect
Elem panic on a non-pointer type (unreachable for kinds produced by
kindOf). -/
inductive DecErrB where
  | num (e : NumErr)
  | cannotDecode (name : String)
  | fieldCount                      -- csv.ErrFieldCount
  | panicked
deriving DecidableEq, Repr

/-- decodeField of decoder.go on the universe.  t is the static type of
the target (needed for the Ptr case, where the code allocates
reflect.New(t.Elem()) and recurses on the fresh zero value); v is the
current field value, left untouched when a Ptr field reads "". -/
def decodeField (t : GoTy) (kind : KindB) (name : String) (v : GoVal) (value : String) :
    Except DecErrB GoVal :=
  match kind with
  | .kbBool => ((goParseBool value).map .boolV).mapError .num
  | .kbInt64 => ((goParseInt value 10 64).map .intV).mapError .num
  | .kbPtr =>
    if value = "" then .ok v
    else
      match t with
      | .ptr t' => (decodeField t' (kindOfB t') name (zeroVal t') value).map .ptrSome
      | _ => .error .panicked
  | .kbString => .ok (.strV value)
  | .kbUint64 => ((goParseUint value 10 64).map .uintV).mapError .num
  | .kbByteSlice => .ok (.bytesV value)
  | .kbInvalid => .error (.cannotDecode name)

/-- One CSV record as produced by the Reader capability, together with
the (line, column) positions its FieldPos method reports for each field.
The CSV tokenizer itself is out of scope; positions are input data. -/
structure RowB where
  fields : List String
  pos : List (Nat × Nat)
deriving DecidableEq, Repr

/-- fieldPos of interface.go: the position capability of the reader, or
(0, 0) when absent / out of range. -/
def fieldPosB (r : RowB) (field : Nat) : Nat × Nat :=
  r.pos.getD field (0, 0)

/-- DecodingError of decoder.go: line/column plus the wrapped error. -/
structure DecodingError where
  line : Nat
  column : Nat
  wrapped : DecErrB
deriving DecidableEq, Repr

/-- newDecodingError of decoder.go. -/
def newDecodingError (r : RowB) (field : Nat) (e : DecErrB) : DecodingError :=
  ⟨(fieldPosB r field).1, (fieldPosB r field).2, e⟩

/-- Decoder configuration and input (decoder.go).  disallowShortFields
has no counterpart in decoder.go; it is Modelled from the spec: the
revision that implements DisallowShortFields is absent from the sources
(only its tests remain), and §4.6 of the spec specifies the rule. -/
structure DecoderB where
  rows : List RowB
  header : List String
  cleanerFunc : String → String → String
  skipInvalidRows : Bool
  noUnknownFields : Bool
  noShortFields : Bool
deriving Inhabited

/-- Top-level errors of the decode driver. -/
inductive DecodeTopErr where
  | invalidArg                      -- valueOf rejected the argument
  | invalidType                     -- not a pointer to a slice of structs
  | resolve (e : ResolveErrB)
  | dupHeader (name : String)       -- "duplicate header name ..."
  | rowErr (e : DecodingError)      -- a fatal per-row error
deriving DecidableEq, Repr

/-- An unused descriptor slot; reachable only through an out-of-range
descriptor index, which mapHeader never produces. -/
def junkFieldB : FieldB := ⟨[], .kbInvalid, ""⟩

/-- The inner loop of mapHeader (identical to matchPairs of
reflect.go). -/
def matchPairsB (col : String) (i : Nat) : Nat → List FieldB → List Nat
  | _, [] => []
  | j, f :: fs => (if f.name = col then [i, j] else []) ++ matchPairsB col i (j + 1) fs

/-- The outer loop of mapHeader building the flattened
(column index, descriptor index) pair list. -/
def headerPairsB (fields : List FieldB) : Nat → List String → List Nat
  | _, [] => []
  | i, col :: rest => matchPairsB col i 0 fields ++ headerPairsB fields (i + 1) rest

/-- The zero record reflect.New(structType) produces: one zero value per
field of the struct, at the field's declared position. -/
def zeroRecB : GoFields → List GoVal
  | .nil => []
  | .cons _ _ _ _ ty rest => zeroVal ty :: zeroRecB rest

/-- The declared types of the struct's fields, by position. -/
def topFieldTys : GoFields → List GoTy
  | .nil => []
  | .cons _ _ _ _ ty rest => ty :: topFieldTys rest

/-- The per-row pair loop of decodeFunc (lines 185-208 of decoder.go):
fetch the column when in range (else the empty string), clean it, and
convert it into the record; a failure reports the clamped field index.
The Go clamp is len(record)-1, an int that cannot go negative here
because a CSV record always has at least one field. -/
def applyPairsB (cleaner : String → String → String) (ftys : List GoTy)
    (fields : List FieldB) (record : List String) :
    List Nat → List GoVal → Except (Nat × DecErrB) (List GoVal)
  | i :: j :: rest, rec =>
    let value := if i < record.length then record.getD i "" else ""
    let field := fields.getD j junkFieldB
    let fi := field.index.getD 0 0
    let fty := (ftys.getD fi (.strct .nil))
    let fieldval := rec.getD fi .ptrNil
    let cleaned := cleaner field.name value
    match decodeField fty field.kind field.name fieldval cleaned with
    | .error e =>
      let fieldidx := if record.length ≤ i then record.length - 1 else i
      .error (fieldidx, e)
    | .ok v' => applyPairsB cleaner ftys fields record rest (rec.set fi v')
  | _, rec => .ok rec

/-- The row loop of decodeFunc.  The first guard is the
DisallowUnknownFields check of decoder.go lines 172-180; the second is
Modelled from the spec: §4.6 raises the same field-count error,
positioned at the row's start, when "disallow short fields" is active
and the row has fewer fields than the descriptor set (the revision
implementing DisallowShortFields is not among the sources). -/
def decodeLoopB (d : DecoderB) (fields : List FieldB) (ftys : List GoTy)
    (zrec : List GoVal) (pairs : List Nat) :
    List RowB → List (List GoVal) → List DecodingError →
    Except DecodeTopErr (List (List GoVal) × List DecodingError)
  | [], out, errs => .ok (out, errs)
  | r :: rest, out, errs =>
    if d.noUnknownFields ∧ fields.length < r.fields.length then
      let e := newDecodingError r 0 .fieldCount
      if ¬ d.skipInvalidRows then .error (.rowErr e)
      else decodeLoopB d fields ftys zrec pairs rest out (errs ++ [e])
    else if d.noShortFields ∧ r.fields.length < fields.length then
      let e := newDecodingError r 0 .fieldCount
      if ¬ d.skipInvalidRows then .error (.rowErr e)
      else decodeLoopB d fields ftys zrec pairs rest out (errs ++ [e])
    else
      match applyPairsB d.cleanerFunc ftys fields r.fields pairs zrec with
      | .error (fid, e) =>
        let e' := newDecodingError r fid e
        if ¬ d.skipInvalidRows then .error (.rowErr e')
        else decodeLoopB d fields ftys zrec pairs rest out (errs ++ [e'])
      | .ok rec => decodeLoopB d fields ftys zrec pairs rest (out ++ [rec]) errs

/-- decodeFunc of decoder.go for the bulk Decode callback (which appends
every record and never fails): resolve the struct, obtain the header
(the caller-set one, or the first record of the stream — end of input
there is not an error), reject duplicate header names, bind the pairs
and run the row loop.  Returns the decoded records and the error list
accumulated in skip-invalid-rows mode (the Errors method). -/
def decodeFuncB (sty : GoFields) (d : DecoderB) :
    Except DecodeTopErr (List (List GoVal) × List DecodingError) :=
  match appendFieldsB sty 0 [] [] with
  | .error e => .error (.resolve e)
  | .ok (fields, _) =>
    match (if ¬ d.header.isEmpty then some (d.header, d.rows)
           else match d.rows with
             | [] => none
             | r :: rest => some (r.fields, rest)) with
    | none => .ok ([], [])
    | some (header, dataRows) =>
      match dupName header [] with
      | some h => .error (.dupHeader h)
      | none =>
        decodeLoopB d fields (topFieldTys sty) (zeroRecB sty)
          (headerPairsB fields 0 header) dataRows [] []

/-- Decode of decoder.go.  The argument models the interface value: none
is nil, otherwise the dynamic type and whether the pointer is nil
(valueOf rejects both); the isNil flag models pointer arguments, the
only call shape that reaches the type test (IsNil panics on
non-nilable kinds).  On success the target slice is the returned record
list — in particular the empty list for empty input. -/
def DecodeB (d : DecoderB) : Option (GoTy × Bool) →
    Except DecodeTopErr (List (List GoVal))
  | none => .error .invalidArg
  | some (t, isNil) =>
    if isNil then .error .invalidArg
    else
      match innerTypeOf t [.kPtr, .kSlice, .kStrct] with
      | none => .error .invalidType
      | some (.strct fs) => (decodeFuncB fs d).map (·.1)
      | some _ => .error .invalidType

/-! ## Arithmetic facts about the strconv embedding. -/

/-- Base-b digit expansion on the value side, parallel to
natToBaseDigits. -/
def specDigits (b u : Nat) : List Nat :=
  if _h : 2 ≤ b ∧ b ≤ u then specDigits b (u / b) ++ [u % b]
  else [u]
termination_by u
decreasing_by
  exact Nat.div_lt_self (by omega) (by omega)

/-- Horner evaluation of a digit list, the value computed by ParseUint's
accumulation loop. -/
def baseFold (b a : Nat) (ds : List Nat) : Nat :=
  ds.foldl (fun n d => n * b + d) a

theorem baseFold_nil (b a : Nat) : baseFold b a [] = a := rfl

theorem baseFold_cons (b a d : Nat) (ds : List Nat) :
    baseFold b a (d :: ds) = baseFold b (a * b + d) ds := rfl

theorem baseFold_append (b a : Nat) (ds : List Nat) (d : Nat) :
    baseFold b a (ds ++ [d]) = baseFold b a ds * b + d := by
  simp [baseFold, List.foldl_append]

theorem le_baseFold (b : Nat) (hb : 1 ≤ b) :
    ∀ (ds : List Nat) (a : Nat), a ≤ baseFold b a ds := by
  intro ds
  induction ds with
  | nil => intro a; exact Nat.le_refl a
  | cons d ds ih =>
    intro a
    rw [baseFold_cons]
    refine Nat.le_trans ?_ (ih (a * b + d))
    have : a * 1 ≤ a * b := Nat.mul_le_mul_left a hb
    omega

theorem specDigits_ne_nil (b u : Nat) : specDigits b u ≠ [] := by
  rw [specDigits]
  split <;> simp

theorem specDigits_lt (b : Nat) (hb : 2 ≤ b) :
    ∀ (u d : Nat), d ∈ specDigits b u → d < b := by
  intro u
  induction u using Nat.strong_induction_on with
  | _ u ih =>
    intro d hd
    rw [specDigits] at hd
    by_cases h : 2 ≤ b ∧ b ≤ u
    · rw [dif_pos h] at hd
      rcases List.mem_append.mp hd with h1 | h2
      · exact ih (u / b) (Nat.div_lt_self (by omega) (by omega)) d h1
      · have : d = u % b := by simpa using h2
        subst this
        exact Nat.mod_lt u (by omega)
    · rw [dif_neg h] at hd
      have : d = u := by simpa using hd
      omega

theorem specDigits_val (b : Nat) (hb : 2 ≤ b) :
    ∀ u : Nat, baseFold b 0 (specDigits b u) = u := by
  intro u
  induction u using Nat.strong_induction_on with
  | _ u ih =>
    rw [specDigits]
    by_cases h : 2 ≤ b ∧ b ≤ u
    · rw [dif_pos h, baseFold_append, ih (u / b) (Nat.div_lt_self (by omega) (by omega))]
      rw [Nat.mul_comm]
      exact Nat.div_add_mod u b
    · rw [dif_neg h]
      simp [baseFold]

theorem natToBaseDigits_eq_map (b : Nat) :
    ∀ u : Nat, natToBaseDigits b u = (specDigits b u).map goDigitChar := by
  intro u
  induction u using Nat.strong_induction_on with
  | _ u ih =>
    rw [natToBaseDigits, specDigits]
    by_cases h : 2 ≤ b ∧ b ≤ u
    · rw [dif_pos h, dif_pos h, ih (u / b) (Nat.div_lt_self (by omega) (by omega))]
      simp
    · rw [dif_neg h, dif_neg h]
      simp

/-- Every digit below 36 reads back through the classification switch. -/
theorem charDigitVal_digitChar : ∀ d, d < 36 → charDigitVal (goDigitChar d).toNat = some d := by
  decide

theorem digitChar_not_underscore : ∀ d, d < 36 → (goDigitChar d).toNat ≠ 95 := by
  decide

theorem digitChar_not_sign : ∀ d, d < 36 → goDigitChar d ≠ '+' ∧ goDigitChar d ≠ '-' := by
  decide

/-- ParseUint's loop consumes a valid digit string without error and
computes its Horner value, provided that value fits below maxVal. -/
theorem puLoop_digits (b : Nat) (hb2 : 2 ≤ b) (hb36 : b ≤ 36) (maxVal : Nat)
    (hmax : maxVal ≤ U64 - 1) (base0 : Bool) :
    ∀ (ds : List Nat) (n : Nat) (us : Bool), (∀ d ∈ ds, d < b) →
      baseFold b n ds ≤ maxVal →
      puLoop b ((U64 - 1) / b + 1) maxVal base0 (ds.map goDigitChar) n us
        = (baseFold b n ds, us, none) := by
  intro ds
  induction ds with
  | nil => intro n us _ _; rfl
  | cons d ds ih =>
    intro n us hvalid hle
    have hd : d < b := hvalid d (List.mem_cons_self d ds)
    have hd36 : d < 36 := Nat.lt_of_lt_of_le hd hb36
    have hfold : n * b + d ≤ baseFold b n (d :: ds) := by
      rw [baseFold_cons]
      exact le_baseFold b (by omega) ds (n * b + d)
    have hnb : n * b + d ≤ maxVal := Nat.le_trans hfold hle
    have hU : 0 < U64 := by norm_num [U64]
    have hUn : n * b + d < U64 := by omega
    have hcut : ¬ ((U64 - 1) / b + 1 ≤ n) := by
      intro hc
      have hbn : n * b ≤ U64 - 1 := by omega
      have hdiv : n ≤ (U64 - 1) / b := (Nat.le_div_iff_mul_le (by omega)).mpr hbn
      omega
    have hm1 : n * b % U64 = n * b := Nat.mod_eq_of_lt (by omega)
    have hm2 : (n * b + d) % U64 = n * b + d := Nat.mod_eq_of_lt hUn
    rw [List.map_cons, puLoop]
    rw [if_neg (fun hc => digitChar_not_underscore d hd36 hc.1)]
    rw [charDigitVal_digitChar d hd36]
    simp only [if_neg (show ¬ b ≤ d by omega), if_neg hcut, hm1, hm2]
    rw [if_neg (show ¬ (n * b + d < n * b ∨ maxVal < n * b + d) by omega)]
    rw [baseFold_cons]
    exact ih (n * b + d) us (fun x hx => hvalid x (List.mem_cons_of_mem d hx)) (by
      rw [baseFold_cons] at hle
      exact hle)

/-- strconv.ParseUint reads back the digits strconv's formatter emits:
the round trip at any base 2..36 and bit size 1..64, for any value that
fits the bit size. -/
theorem parseUintRaw_digits (b w : Nat) (hb2 : 2 ≤ b) (hb36 : b ≤ 36)
    (hw1 : 1 ≤ w) (hw64 : w ≤ 64) (u : Nat) (hu : u ≤ 2 ^ w - 1) :
    parseUintRaw (natToBaseDigits b u) (b : Int) (w : Int) = (u, none) := by
  have hmap := natToBaseDigits_eq_map b u
  have hne : natToBaseDigits b u ≠ [] := by
    rw [hmap]
    simpa using specDigits_ne_nil b u
  rw [parseUintRaw.eq_def]
  rw [if_neg (by simpa [List.isEmpty_iff] using hne)]
  rw [if_pos (by constructor <;> omega)]
  rw [parseUintAfterBase]
  rw [if_neg (by omega)]
  rw [if_neg (show ¬ ((w : Int) < 0 ∨ 64 < (w : Int)) by omega)]
  have htn : (w : Int).toNat = w := Int.toNat_natCast w
  rw [htn]
  rw [parseUintAfterBits]
  have hbn : ((b : Int)).toNat = b := Int.toNat_natCast b
  rw [hbn]
  have hmaxle : 2 ^ w - 1 ≤ U64 - 1 := by
    have : (2 : Nat) ^ w ≤ 2 ^ 64 := Nat.pow_le_pow_right (by omega) hw64
    simp only [U64]
    omega
  have hloop := puLoop_digits b hb2 hb36 (2 ^ w - 1) hmaxle false
    (specDigits b u) 0 false (specDigits_lt b hb2 u)
    (by rw [specDigits_val b hb2 u]; exact hu)
  rw [hmap, hloop, specDigits_val b hb2 u]
  simp

/-- Bounds carried by a successful ParseInt range check: the value fits
the declared bit width exactly. -/
theorem parseIntRange_ok (neg : Bool) (un : Nat) (w : Nat) (hw : 1 ≤ w) (v : Int)
    (h : parseIntRange neg un (w : Int) = .ok v) :
    -((2 : Int) ^ (w - 1)) ≤ v ∧ v < (2 : Int) ^ (w - 1) := by
  simp only [parseIntRange] at h
  rw [if_neg (show ¬ ((w : Int) = 0) by omega)] at h
  have htn : ((w : Int)).toNat = w := by omega
  rw [htn] at h
  set C : Nat := 2 ^ (w - 1) with hC
  have hCpos : 1 ≤ C := Nat.one_le_pow _ 2 (by omega)
  have hceq : ((C : Nat) : Int) = (2 : Int) ^ (w - 1) := by
    rw [hC]; push_cast; ring
  rw [← hceq]
  split_ifs at h with h1 h2 h3
  · subst h3
    simp at h h1 h2
    omega
  · replace h3 : neg = false := by simpa using h3
    subst h3
    simp at h h1 h2
    omega

/-- Evaluation of the range check on a fitting non-negative value. -/
theorem parseIntRange_eval_pos (un : Nat) (w : Nat) (hw : 1 ≤ w)
    (hun : un < 2 ^ (w - 1)) :
    parseIntRange false un (w : Int) = .ok (un : Int) := by
  simp only [parseIntRange]
  rw [if_neg (show ¬ ((w : Int) = 0) by omega)]
  have htn : ((w : Int)).toNat = w := by omega
  rw [htn]
  rw [if_neg (by simp only [Bool.false_eq_true, not_false_eq_true, true_and]; omega)]
  rw [if_neg (by simp)]
  simp

/-- Evaluation of the range check on a fitting negated magnitude. -/
theorem parseIntRange_eval_neg (un : Nat) (w : Nat) (hw : 1 ≤ w)
    (hun : un ≤ 2 ^ (w - 1)) :
    parseIntRange true un (w : Int) = .ok (-(un : Int)) := by
  simp only [parseIntRange]
  rw [if_neg (show ¬ ((w : Int) = 0) by omega)]
  have htn : ((w : Int)).toNat = w := by omega
  rw [htn]
  rw [if_neg (by simp)]
  rw [if_neg (by simp only [true_and]; omega)]
  simp

/-- A successful ParseInt yields a value that fits the declared bit
width (decode-side exactness of the integer codec). -/
theorem goParseInt_ok_range (s : String) (b : Int) (w : Nat) (hw : 1 ≤ w) (v : Int)
    (h : goParseInt s b (w : Int) = .ok v) :
    -((2 : Int) ^ (w - 1)) ≤ v ∧ v < (2 : Int) ^ (w - 1) := by
  have key : ∀ (neg : Bool) (s' : List Char),
      goParseIntAfterSign neg s' b (w : Int) = .ok v →
      -((2 : Int) ^ (w - 1)) ≤ v ∧ v < (2 : Int) ^ (w - 1) := by
    intro neg s' h'
    unfold goParseIntAfterSign at h'
    rcases hpu : parseUintRaw s' b (w : Int) with ⟨un, e?⟩
    rw [hpu] at h'
    cases e? with
    | none => exact parseIntRange_ok neg un w hw v h'
    | some e =>
      replace h' : (if e ≠ NumErr.rangeErr then Except.error e
          else parseIntRange neg un (w : Int)) = Except.ok v := h'
      by_cases he : e = .rangeErr
      · rw [if_neg (by simp [he])] at h'
        exact parseIntRange_ok neg un w hw v h'
      · rw [if_pos (by simp [he])] at h'
        simp at h'
  unfold goParseInt at h
  rcases hs : s.data with _ | ⟨c0, rest⟩ <;> rw [hs] at h
  · simp at h
  · replace h : (if c0 = '+' then goParseIntAfterSign false rest b (w : Int)
        else if c0 = '-' then goParseIntAfterSign true rest b (w : Int)
        else goParseIntAfterSign false (c0 :: rest) b (w : Int)) = Except.ok v := h
    split_ifs at h with h1 h2
    · exact key false rest h
    · exact key true rest h
    · exact key false (c0 :: rest) h

theorem goParseInt_cons (c0 : Char) (rest : List Char) (b bs : Int) :
    goParseInt (String.mk (c0 :: rest)) b bs =
      if c0 = '+' then goParseIntAfterSign false rest b bs
      else if c0 = '-' then goParseIntAfterSign true rest b bs
      else goParseIntAfterSign false (c0 :: rest) b bs := rfl

theorem goParseIntAfterSign_none (neg : Bool) (s' : List Char) (b bs : Int) (u : Nat)
    (hpu : parseUintRaw s' b bs = (u, none)) :
    goParseIntAfterSign neg s' b bs = parseIntRange neg u bs := by
  unfold goParseIntAfterSign
  rw [hpu]

/-- FormatInt followed by ParseInt is the identity for any base 2..36
and any value fitting the declared bit width 1..64. -/
theorem goParseInt_goFormatInt (b w : Nat) (hb2 : 2 ≤ b) (hb36 : b ≤ 36)
    (hw1 : 1 ≤ w) (hw64 : w ≤ 64) (v : Int)
    (hlo : -((2 : Int) ^ (w - 1)) ≤ v) (hhi : v < (2 : Int) ^ (w - 1)) :
    goFormatInt v (b : Int)
        = some (String.mk ((if v < 0 then ['-'] else []) ++ natToBaseDigits b v.natAbs))
    ∧ goParseInt (String.mk ((if v < 0 then ['-'] else []) ++ natToBaseDigits b v.natAbs))
        (b : Int) (w : Int) = .ok v := by
  have hceq : ((2 ^ (w - 1) : Nat) : Int) = (2 : Int) ^ (w - 1) := by push_cast; ring
  rw [← hceq] at hlo hhi
  have habs : v.natAbs ≤ 2 ^ (w - 1) := by omega
  have h2w : 2 ^ (w - 1) * 2 = 2 ^ w := by
    rw [← pow_succ, Nat.sub_add_cancel hw1]
  have hCpos : 1 ≤ 2 ^ (w - 1) := Nat.one_le_pow _ 2 (by omega)
  have hu : v.natAbs ≤ 2 ^ w - 1 := by omega
  have hfmt : goFormatInt v (b : Int)
      = some (String.mk ((if v < 0 then ['-'] else []) ++ natToBaseDigits b v.natAbs)) := by
    rw [goFormatInt]
    rw [if_pos (by constructor <;> omega)]
    rw [Int.toNat_natCast]
  refine ⟨hfmt, ?_⟩
  by_cases hneg : v < 0
  · rw [if_pos hneg]
    simp only [List.cons_append, List.nil_append]
    rw [goParseInt_cons]
    rw [if_neg (by decide), if_pos rfl]
    rw [goParseIntAfterSign_none _ _ _ _ _
      (parseUintRaw_digits b w hb2 hb36 hw1 hw64 v.natAbs hu)]
    rw [parseIntRange_eval_neg v.natAbs w hw1 habs]
    congr 1
    omega
  · rw [if_neg hneg]
    simp only [List.nil_append]
    rcases hsd : specDigits b v.natAbs with _ | ⟨d0, ds⟩
    · exact absurd hsd (specDigits_ne_nil b v.natAbs)
    have hD : natToBaseDigits b v.natAbs = goDigitChar d0 :: ds.map goDigitChar := by
      rw [natToBaseDigits_eq_map, hsd, List.map_cons]
    rw [hD, goParseInt_cons]
    have hd0 : d0 < 36 := by
      refine Nat.lt_of_lt_of_le (specDigits_lt b hb2 v.natAbs d0 ?_) hb36
      rw [hsd]
      exact List.mem_cons_self _ _
    have hsign := digitChar_not_sign d0 hd0
    rw [if_neg hsign.1, if_neg hsign.2]
    rw [← List.map_cons, ← hsd, ← natToBaseDigits_eq_map]
    rw [goParseIntAfterSign_none _ _ _ _ _
      (parseUintRaw_digits b w hb2 hb36 hw1 hw64 v.natAbs hu)]
    rw [parseIntRange_eval_pos v.natAbs w hw1 (by omega)]
    congr 1
    omega

/-- The accumulation loop never exceeds maxVal on a clean run. -/
theorem puLoop_none_le (b cutoff maxVal : Nat) (base0 : Bool) :
    ∀ (cs : List Char) (n : Nat) (us : Bool) (m : Nat) (us' : Bool),
      n ≤ maxVal → puLoop b cutoff maxVal base0 cs n us = (m, us', none) →
      m ≤ maxVal := by
  intro cs
  induction cs with
  | nil =>
    intro n us m us' hn h
    injection h with h1 h2
    subst h1
    exact hn
  | cons c cs ih =>
    intro n us m us' hn h
    rw [puLoop] at h
    by_cases hc : c.toNat = 95 ∧ base0
    · rw [if_pos hc] at h
      exact ih n true m us' hn h
    · rw [if_neg hc] at h
      rcases hcd : charDigitVal c.toNat with _ | d <;> rw [hcd] at h
      · simp at h
      · replace h : (if b ≤ d then ((0 : Nat), us, some NumErr.synErr)
            else if cutoff ≤ n then (maxVal, us, some NumErr.rangeErr)
            else if (n * b % U64 + d) % U64 < n * b % U64 ∨ maxVal < (n * b % U64 + d) % U64 then
              (maxVal, us, some NumErr.rangeErr)
            else puLoop b cutoff maxVal base0 cs ((n * b % U64 + d) % U64) us)
            = (m, us', none) := h
        split_ifs at h with hb1 hb2 hb3
        · simp at h
        · simp at h
        · simp at h
        · exact ih _ _ _ _ (by omega) h

/-- A clean ParseUint tail stays within the bit-size bound. -/
theorem parseUintAfterBits_le (s0 s : List Char) (b : Nat) (base0 : Bool) (w : Nat)
    (n : Nat) (h : parseUintAfterBits s0 s b base0 w = (n, none)) :
    n ≤ 2 ^ w - 1 := by
  simp only [parseUintAfterBits] at h
  rcases hl : puLoop b ((U64 - 1) / b + 1) (2 ^ w - 1) base0 s 0 false with ⟨m, us, e?⟩
  rw [hl] at h
  cases e? with
  | none =>
    replace h : (if us = true ∧ ¬ underscoreOK s0 = true then ((0 : Nat), some NumErr.synErr)
        else (m, none)) = (n, none) := h
    split_ifs at h with hus
    · simp at h
    · injection h with h1 h2
      subst h1
      exact puLoop_none_le b ((U64 - 1) / b + 1) (2 ^ w - 1) base0 s 0 false m us
        (Nat.zero_le _) hl
  | some e => simp at h

theorem parseUintAfterBase_le (s0 s : List Char) (b : Nat) (base0 : Bool) (w : Nat)
    (hw1 : 1 ≤ w) (hw64 : w ≤ 64) (n : Nat)
    (h : parseUintAfterBase s0 s b base0 (w : Int) = (n, none)) :
    n ≤ 2 ^ w - 1 := by
  unfold parseUintAfterBase at h
  rw [if_neg (by omega), if_neg (show ¬ ((w : Int) < 0 ∨ 64 < (w : Int)) by omega)] at h
  have htn : ((w : Int)).toNat = w := by omega
  rw [htn] at h
  exact parseUintAfterBits_le s0 s b base0 w n h

theorem parseUintRaw_ok_le (sIn : List Char) (b : Int) (hb2 : 2 ≤ b) (hb36 : b ≤ 36)
    (w : Nat) (hw1 : 1 ≤ w) (hw64 : w ≤ 64) (n : Nat)
    (h : parseUintRaw sIn b (w : Int) = (n, none)) :
    n ≤ 2 ^ w - 1 := by
  rw [parseUintRaw.eq_def] at h
  split_ifs at h with he hb hb0
  · simp at h
  · exact parseUintAfterBase_le sIn sIn b.toNat false w hw1 hw64 n h
  · omega
  · simp at h

/-- A successful ParseUint yields a value below 2^bitSize (decode-side
exactness of the unsigned codec). -/
theorem goParseUint_ok_lt (s : String) (b : Int) (hb2 : 2 ≤ b) (hb36 : b ≤ 36)
    (w : Nat) (hw1 : 1 ≤ w) (hw64 : w ≤ 64) (u : Nat)
    (h : goParseUint s b (w : Int) = .ok u) : u < 2 ^ w := by
  unfold goParseUint at h
  rcases hpu : parseUintRaw s.data b (w : Int) with ⟨n, e?⟩
  rw [hpu] at h
  cases e? with
  | none =>
    injection h with h1
    have hle := parseUintRaw_ok_le s.data b hb2 hb36 w hw1 hw64 n hpu
    have hp : 1 ≤ 2 ^ w := Nat.one_le_pow _ 2 (by omega)
    omega
  | some e => simp at h

/-- FormatUint followed by ParseUint is the identity for values fitting
the bit size. -/
theorem goParseUint_goFormatUint (b w : Nat) (hb2 : 2 ≤ b) (hb36 : b ≤ 36)
    (hw1 : 1 ≤ w) (hw64 : w ≤ 64) (u : Nat) (hu : u ≤ 2 ^ w - 1) :
    goFormatUint u (b : Int) = some (String.mk (natToBaseDigits b u))
    ∧ goParseUint (String.mk (natToBaseDigits b u)) (b : Int) (w : Int) = .ok u := by
  constructor
  · rw [goFormatUint]
    rw [if_pos (by constructor <;> omega)]
    rw [Int.toNat_natCast]
  · unfold goParseUint
    have hpu := parseUintRaw_digits b w hb2 hb36 hw1 hw64 u hu
    have hdata : (String.mk (natToBaseDigits b u)).data = natToBaseDigits b u := rfl
    rw [hdata, hpu]

/-! ## Concrete record types and decoder states used in the claims. -/

/-- NewDecoder of decoder.go: empty header, identity cleaner, all
strictness flags off (the spec-modelled short-fields flag included). -/
def NewDecoderB (rows : List RowB) : DecoderB :=
  ⟨rows, [], fun _ field => field, false, false, false⟩

/-- struct { B bool; S string } of the strictness/skip tests. -/
def fieldsBS : GoFields :=
  .cons "B" none true false .bool (.cons "S" none true false .str .nil)

/-- struct { A bool; B bool }: a short row leaves B to decode "". -/
def fieldsBB : GoFields :=
  .cons "A" none true false .bool (.cons "B" none true false .bool .nil)

/-- struct { Name string csv movie; Year int csv year } of the examples. -/
def fieldsMovie : GoFields :=
  .cons "Name" (some "movie") true false .str
    (.cons "Year" (some "year") true false .intT .nil)

/-- A record type with an anonymous embedded struct, an ",inline"
tagged struct, an excluded field and a renamed field. -/
def fieldsEmb : GoFields :=
  .cons "A" none true true (.strct (.cons "A" none true false .intT .nil))
    (.cons "B" (some ",inline") true false (.strct (.cons "B" none true false .intT .nil))
      (.cons "D" (some "-") true false .intT
        (.cons "C" (some "c") true false .intT .nil)))

/-- Two fields resolving to the same column name "a". -/
def fieldsDup : GoFields :=
  .cons "A" (some "a") true false .intT
    (.cons "B" (some "a") true false (.ptr .intT) .nil)

/-- n nested pointer types around a base type. -/
def nestPtr : Nat → GoTy → GoTy
  | 0, t => t
  | n + 1, t => .ptr (nestPtr n t)

/-- n nested allocations around a value. -/
def nestSome : Nat → GoVal → GoVal
  | 0, v => v
  | n + 1, v => .ptrSome (nestSome n v)

/-- The column name of one field as §4.4/§8 of the spec word it: the
first comma-separated segment of the directive if present and
non-empty, else the field identifier.  (Spec-side definition.) -/
def specNm (fname : String) (tag : Option String) : String :=
  let nm0 := match tag with
    | some tg => String.mk (tg.data.takeWhile (fun c => ¬ c = ','))
    | none => ""
  if nm0 = "" then fname else nm0

/-- The resolved column names as §4.4 of the spec words them: walk the
fields in declaration order; flatten an embedded-by-default or
inline-tagged sub-record in place; otherwise resolve the name, dropping
"-" names.  (Spec-side definition for the refinement statement of
C7.) -/
def specResolvedNames : GoFields → List String
  | .nil => []
  | .cons fname tag exported anonymous ty rest =>
    if exported then
      match ty, anonymous || hasInlineTag tag with
      | .strct fs', true => specResolvedNames fs' ++ specResolvedNames rest
      | _, _ =>
        if specNm fname tag = "-" then specResolvedNames rest
        else specNm fname tag :: specResolvedNames rest
    else specResolvedNames rest

/-! ## Claim theorems. -/

/-- C2: for every integer-typed field, decode and encode operate at the
fixed bit width matching the field's declared width (8/16/32/64) and use
the field's configured numeric base (default 10, any base 2..36 settable
via tag): newValueConverter binds intCodec/uintCodec at exactly the
declared width with the tag's base; a successful decode always yields a
value inside the declared width; encoding then decoding at the same base
and width is the identity; and in particular a field with base 16
decodes the text "2b" to the value 43. -/
theorem claim2_intCodec_exact_width_and_base :
    (∀ (name : String) (base prec : Int) (f : Char),
        newValueConverter .i8 name base prec f = .ok (.plain (.intC 8 base)) ∧
        newValueConverter .i16 name base prec f = .ok (.plain (.intC 16 base)) ∧
        newValueConverter .i32 name base prec f = .ok (.plain (.intC 32 base)) ∧
        newValueConverter .i64 name base prec f = .ok (.plain (.intC 64 base)) ∧
        newValueConverter .u8 name base prec f = .ok (.plain (.uintC 8 base)) ∧
        newValueConverter .u16 name base prec f = .ok (.plain (.uintC 16 base)) ∧
        newValueConverter .u32 name base prec f = .ok (.plain (.uintC 32 base)) ∧
        newValueConverter .u64 name base prec f = .ok (.plain (.uintC 64 base)))
    ∧ (∀ (w : Nat) (b : Int) (s : String) (v : Int), 1 ≤ w →
        baseDecode (.intC w b) s = .ok (.intV v) →
        -((2 : Int) ^ (w - 1)) ≤ v ∧ v < (2 : Int) ^ (w - 1))
    ∧ (∀ (w b : Nat) (s : String) (u : Nat),
        2 ≤ b → b ≤ 36 → 1 ≤ w → w ≤ 64 →
        baseDecode (.uintC w (b : Int)) s = .ok (.uintV u) → u < 2 ^ w)
    ∧ (∀ (w b : Nat) (v : Int),
        (w = 8 ∨ w = 16 ∨ w = 32 ∨ w = 64) → 2 ≤ b → b ≤ 36 →
        -((2 : Int) ^ (w - 1)) ≤ v → v < (2 : Int) ^ (w - 1) →
        ∃ s, baseEncode (.intC w (b : Int)) (.intV v) = some s ∧
             baseDecode (.intC w (b : Int)) s = .ok (.intV v))
    ∧ (∀ (w b u : Nat),
        (w = 8 ∨ w = 16 ∨ w = 32 ∨ w = 64) → 2 ≤ b → b ≤ 36 → u ≤ 2 ^ w - 1 →
        ∃ s, baseEncode (.uintC w (b : Int)) (.uintV u) = some s ∧
             baseDecode (.uintC w (b : Int)) s = .ok (.uintV u))
    ∧ baseDecode (.intC 64 16) "2b" = .ok (.intV 43) := by
  refine ⟨?_, ?_, ?_, ?_, ?_, ?_⟩
  · intro name base prec f
    exact ⟨rfl, rfl, rfl, rfl, rfl, rfl, rfl, rfl⟩
  · intro w b s v hw hde
    rcases hgp : goParseInt s b (w : Int) with e | a
    · rw [baseDecode, hgp] at hde
      exact Except.noConfusion hde
    · rw [baseDecode, hgp] at hde
      replace hde : Except.ok (GoVal.intV a) = Except.ok (GoVal.intV v) := hde
      injection hde with hde
      injection hde with hde
      subst hde
      exact goParseInt_ok_range s b w hw a hgp
  · intro w b s u hb2 hb36 hw1 hw64 hde
    rcases hgp : goParseUint s (b : Int) (w : Int) with e | a
    · rw [baseDecode, hgp] at hde
      exact Except.noConfusion hde
    · rw [baseDecode, hgp] at hde
      replace hde : Except.ok (GoVal.uintV a) = Except.ok (GoVal.uintV u) := hde
      injection hde with hde
      injection hde with hde
      subst hde
      exact goParseUint_ok_lt s (b : Int) (by omega) (by omega) w hw1 hw64 a hgp
  · intro w b v hw hb2 hb36 hlo hhi
    have hw1 : 1 ≤ w := by omega
    have hw64 : w ≤ 64 := by omega
    obtain ⟨hfmt, hparse⟩ := goParseInt_goFormatInt b w hb2 hb36 hw1 hw64 v hlo hhi
    refine ⟨String.mk ((if v < 0 then ['-'] else []) ++ natToBaseDigits b v.natAbs), ?_, ?_⟩
    · rw [baseEncode]
      exact hfmt
    · rw [baseDecode, hparse]
      rfl
  · intro w b u hw hb2 hb36 hu
    have hw1 : 1 ≤ w := by omega
    have hw64 : w ≤ 64 := by omega
    obtain ⟨hfmt, hparse⟩ := goParseUint_goFormatUint b w hb2 hb36 hw1 hw64 u hu
    refine ⟨String.mk (natToBaseDigits b u), ?_, ?_⟩
    · rw [baseEncode]
      exact hfmt
    · rw [baseDecode, hparse]
      rfl
  · rfl

/-- Witness for C2 at concrete inputs: the "2b" example at base 16, the
round trip of -43 through an 8-bit field at base 16, and the converter
bound to an int8 field tagged base=16. -/
theorem claim2_witness :
    (baseDecode (.intC 64 16) "2b" = .ok (.intV 43))
    ∧ (∃ s, baseEncode (.intC 8 (16 : Nat) : BaseConv) (.intV (-43)) = some s ∧
        baseDecode (.intC 8 (16 : Nat) : BaseConv) s = .ok (.intV (-43)))
    ∧ newValueConverter .i8 "n" 16 (-1) 'f' = .ok (.plain (.intC 8 16)) := by
  refine ⟨claim2_intCodec_exact_width_and_base.2.2.2.2.2, ?_, ?_⟩
  · exact claim2_intCodec_exact_width_and_base.2.2.2.1 8 16 (-43)
      (Or.inl rfl) (by omega) (by omega) (by decide) (by decide)
  · exact (claim2_intCodec_exact_width_and_base.1 "n" 16 (-1) 'f').1

/-- C8 (code bug): parseTag follows the directive grammar -- first
segment the name, base=/prec= integer keys, fmt= a format character,
later keys overriding earlier ones, unrecognized segments ignored,
defaults (10, -1, f) -- except that the fmt= case reads val[4] under the
guard len(val) >= 4 instead of >= 5, so the segment "fmt=" of length
exactly 4 raises an index-out-of-range runtime panic instead of being
ignored: parseTag "x,fmt=" panics while the neighbouring inputs follow
the grammar. -/
theorem claim8_parseTag_fmt_empty_panics :
    parseTag "x,fmt=" = .error .idxOutOfRange
    ∧ parseTag "x,fmt=E" = .ok ("x", 10, -1, 'E')
    ∧ parseTag "my_field,base=16,base=2" = .ok ("my_field", 2, -1, 'f')
    ∧ parseTag "my_field,something,,base=" = .ok ("my_field", 10, -1, 'f')
    ∧ parseTag "" = .ok ("", 10, -1, 'f') := by
  exact ⟨rfl, rfl, rfl, rfl, rfl⟩

/-- C9 counterexample: the claim quantifies over every argument that is
not a NON-NIL pointer to a slice of structs, but a nil pointer of type
pointer-to-slice-of-structs does not panic: Header inspects only the
dynamic type, never the pointer value. -/
theorem claim9_counterexample :
    Header (some (.ptr (.slice (.strct fieldsBB)), true)) = .ok ["A", "B"] := rfl

/-- C9 (amended): for every argument whose dynamic type is not a
pointer to a slice of structs (the nil interface included), Header
panics -- innerTypeOf yields a nil type and descriptor resolution
dereferences it -- rather than returning an error value; whether a
well-typed pointer argument is nil is irrelevant. -/
theorem claim9_header_panics_on_wrong_type :
    ∀ (arg : Option (GoTy × Bool)),
      (∀ t isNil, arg = some (t, isNil) →
        innerTypeOf t [.kPtr, .kSlice, .kStrct] = none) →
      Header arg = .error .panicked := by
  intro arg h
  match arg with
  | none => rfl
  | some (t, isNil) =>
    have hnone := h t isNil rfl
    show headerOf (innerTypeOf t [.kPtr, .kSlice, .kStrct]) = .error .panicked
    rw [hnone]
    rfl

/-- Witness for C9 at a concrete input: a bare machine int panics. -/
theorem claim9_witness : Header (some (.intT, false)) = .error .panicked := by
  apply claim9_header_panics_on_wrong_type
  intro t isNil h
  injection h with h
  injection h with h1 h2
  subst h1
  rfl

/-- C10: decoding a completely empty input stream -- end of input while
reading the header row -- is not an error: decodeFunc returns nil and
Decode sets the target to an empty slice, for any resolvable record
type and any decoder configuration without a caller-set header. -/
theorem claim10_empty_input_ok :
    ∀ (fs : GoFields) (fields : List FieldB) (ns : List String)
      (cleaner : String → String → String) (skip unk short : Bool),
      appendFieldsB fs 0 [] [] = .ok (fields, ns) →
      decodeFuncB fs ⟨[], [], cleaner, skip, unk, short⟩ = .ok ([], [])
      ∧ DecodeB ⟨[], [], cleaner, skip, unk, short⟩
          (some (.ptr (.slice (.strct fs)), false)) = .ok [] := by
  intro fs fields ns cleaner skip unk short h
  have h1 : decodeFuncB fs ⟨[], [], cleaner, skip, unk, short⟩ = .ok ([], []) := by
    unfold decodeFuncB
    rw [h]
    rfl
  refine ⟨h1, ?_⟩
  show (decodeFuncB fs ⟨[], [], cleaner, skip, unk, short⟩).map (·.1) = .ok []
  rw [h1]
  rfl

/-- Witness for C10: the {bool, string} record type on empty input. -/
theorem claim10_witness :
    decodeFuncB fieldsBS (NewDecoderB []) = .ok ([], [])
    ∧ DecodeB (NewDecoderB []) (some (.ptr (.slice (.strct fieldsBS)), false)) = .ok [] :=
  claim10_empty_input_ok fieldsBS
    [⟨[0], .kbBool, "B"⟩, ⟨[1], .kbString, "S"⟩] ["B", "S"]
    (fun _ field => field) false false false rfl

/-- The chain loop of ptrCodec.Decode delegates to the base codec once
the type is no longer a pointer. -/
theorem ptrDecodeChain_base (bc : BaseConv) (t0 : GoTy) (s : String)
    (h : ∀ u, t0 ≠ .ptr u) : ptrDecodeChain bc t0 s = baseDecode bc s := by
  cases t0 <;> first
    | rfl
    | exact absurd rfl (h _)

theorem ptrDecodeChain_nest (bc : BaseConv) (t0 : GoTy) (s : String)
    (h : ∀ u, t0 ≠ .ptr u) :
    ∀ n : Nat, ptrDecodeChain bc (nestPtr n t0) s
      = (baseDecode bc s).map (nestSome n) := by
  intro n
  induction n with
  | zero =>
    show ptrDecodeChain bc t0 s = Except.map (nestSome 0) (baseDecode bc s)
    rw [ptrDecodeChain_base bc t0 s h]
    cases baseDecode bc s <;> rfl
  | succ n ih =>
    show Except.map GoVal.ptrSome (ptrDecodeChain bc (nestPtr n t0) s)
        = Except.map (nestSome (n + 1)) (baseDecode bc s)
    rw [ih]
    cases baseDecode bc s <;> rfl

/-- The unwrap loop of ptrCodec.Encode on a value that is not a
pointer. -/
theorem ptrEncodeChain_base (bc : BaseConv) (v : GoVal)
    (hns : ∀ u, v ≠ .ptrSome u) (hnn : v ≠ .ptrNil) :
    ptrEncodeChain bc v = baseEncode bc v := by
  cases v <;> first
    | rfl
    | exact absurd rfl (hns _)
    | exact absurd rfl hnn

/-- C6: the pointer (optional) codec: decoding the empty string returns
the current value unchanged (a nil pointer stays nil, nothing is
allocated); decoding a non-empty string allocates through every level of
pointer nesting and delegates to the inner converter on a fresh zero
value; encoding nil (at any depth) yields the empty string and encoding
an allocated value yields the inner encoding; and the text "0" decodes
an optional int field to a present, zero-valued allocation -- distinct
from the empty string, which leaves it nil. -/
theorem claim6_ptrCodec_optional_semantics :
    (∀ (bc : BaseConv) (t : GoTy) (v : GoVal), convDecode (.ptrC bc) t v "" = .ok v)
    ∧ (∀ (bc : BaseConv) (t0 : GoTy) (v : GoVal) (s : String) (n : Nat),
        (∀ u, t0 ≠ .ptr u) → s ≠ "" →
        convDecode (.ptrC bc) (nestPtr (n + 1) t0) v s
          = (baseDecode bc s).map (nestSome (n + 1)))
    ∧ (∀ (bc : BaseConv) (n : Nat),
        convEncode (.ptrC bc) (nestSome n .ptrNil) = some "")
    ∧ (∀ (bc : BaseConv) (v : GoVal) (n : Nat),
        (∀ u, v ≠ .ptrSome u) → v ≠ .ptrNil →
        convEncode (.ptrC bc) (nestSome n v) = baseEncode bc v)
    ∧ convDecode (.ptrC (.intC 64 10)) (.ptr .intT) .ptrNil "0"
        = .ok (.ptrSome (.intV 0))
    ∧ convDecode (.ptrC (.intC 64 10)) (.ptr .intT) .ptrNil "" = .ok .ptrNil := by
  refine ⟨?_, ?_, ?_, ?_, rfl, rfl⟩
  · intro bc t v
    rfl
  · intro bc t0 v s n ht hs
    show (if s = "" then Except.ok v else ptrDecodeChain bc (nestPtr (n + 1) t0) s) = _
    rw [if_neg hs]
    exact ptrDecodeChain_nest bc t0 s ht (n + 1)
  · intro bc n
    induction n with
    | zero => rfl
    | succ n ih => exact ih
  · intro bc v n hns hnn
    induction n with
    | zero => exact ptrEncodeChain_base bc v hns hnn
    | succ n ih => exact ih

/-! ## Resolver lemmas for C5 and C7. -/

theorem takeToComma_fst :
    ∀ l : List Char, (takeToComma l).1 = l.takeWhile (fun c => ¬ c = ',') := by
  intro l
  induction l with
  | nil => rfl
  | cons c rest ih =>
    by_cases hc : c = ','
    · subst hc
      simp [takeToComma, List.takeWhile_cons]
    · simp [takeToComma, List.takeWhile_cons, hc, ih]

theorem parseTag_ok_name (tg : String) (nm0 : String) (b p : Int) (f : Char)
    (h : parseTag tg = .ok (nm0, b, p, f)) :
    nm0 = String.mk (tg.data.takeWhile (fun c => ¬ c = ',')) := by
  unfold parseTag at h
  rcases htc : takeToComma tg.data with ⟨name, rest?⟩
  rw [htc] at h
  have hfst : name = tg.data.takeWhile (fun c => ¬ c = ',') := by
    have hf := takeToComma_fst tg.data
    rw [htc] at hf
    exact hf
  cases rest? with
  | none =>
    replace h : (Except.ok (String.mk name, (10 : Int), (-1 : Int), 'f')
        : Except TagPanic (String × Int × Int × Char)) = .ok (nm0, b, p, f) := h
    injection h with h
    have h1 := congrArg Prod.fst h
    simp at h1
    rw [← h1, hfst]
  | some rest =>
    replace h : (match parseTagLoop [] rest (10, -1, 'f') with
        | .ok (b1, p1, f1) =>
          (Except.ok (String.mk name, b1, p1, f1)
            : Except TagPanic (String × Int × Int × Char))
        | .error e => .error e) = .ok (nm0, b, p, f) := h
    rcases hpl : parseTagLoop [] rest (10, -1, 'f') with e | ⟨b', p', f'⟩ <;> rw [hpl] at h
    · replace h : (Except.error e
          : Except TagPanic (String × Int × Int × Char)) = .ok (nm0, b, p, f) := h
      exact Except.noConfusion h
    · replace h : (Except.ok (String.mk name, b', p', f')
          : Except TagPanic (String × Int × Int × Char)) = .ok (nm0, b, p, f) := h
      injection h with h
      have h1 := congrArg Prod.fst h
      simp at h1
      rw [← h1, hfst]

theorem appendResolvedField_ok_shape (fname nm0 : String) (base prec : Int) (ffmt : Char)
    (ty : GoTy) (idx : List Nat) (i : Nat) (acc : List FieldA) (names : List String)
    (acc' : List FieldA) (names' : List String)
    (h : appendResolvedField fname nm0 base prec ffmt ty idx i acc names = .ok (acc', names')) :
    ((if nm0 = "" then fname else nm0) = "-" ∧ acc' = acc ∧ names' = names)
    ∨ (¬ (if nm0 = "" then fname else nm0) = "-"
       ∧ (if nm0 = "" then fname else nm0) ∉ names
       ∧ (∃ codec, acc' = acc ++ [⟨idx ++ [i], (if nm0 = "" then fname else nm0), codec, ty⟩])
       ∧ names' = names ++ [(if nm0 = "" then fname else nm0)]) := by
  simp only [appendResolvedField] at h
  by_cases h1 : (if nm0 = "" then fname else nm0) = "-"
  · rw [if_pos h1] at h
    replace h : (Except.ok (acc, names)
        : Except ResolveErr (List FieldA × List String)) = .ok (acc', names') := h
    injection h with h
    injection h with ha hb
    exact Or.inl ⟨h1, ha.symm, hb.symm⟩
  · rw [if_neg h1] at h
    by_cases h2 : names.contains (if nm0 = "" then fname else nm0)
    · rw [if_pos h2] at h
      exact Except.noConfusion h
    · rw [if_neg h2] at h
      rcases hc : newValueConverter ty (if nm0 = "" then fname else nm0) base prec ffmt
          with e | codec <;> rw [hc] at h
      · exact Except.noConfusion h
      · injection h with h
        injection h with ha hb
        refine Or.inr ⟨h1, ?_, ⟨codec, ha.symm⟩, hb.symm⟩
        intro hmem
        exact h2 (List.elem_iff.mpr hmem)

theorem appendOneField_ok_shape (fname : String) (tag : Option String) (ty : GoTy)
    (idx : List Nat) (i : Nat) (acc : List FieldA) (names : List String)
    (acc' : List FieldA) (names' : List String)
    (h : appendOneField fname tag ty idx i acc names = .ok (acc', names')) :
    (specNm fname tag = "-" ∧ acc' = acc ∧ names' = names)
    ∨ (¬ specNm fname tag = "-" ∧ specNm fname tag ∉ names
       ∧ (∃ codec, acc' = acc ++ [⟨idx ++ [i], specNm fname tag, codec, ty⟩])
       ∧ names' = names ++ [specNm fname tag]) := by
  unfold appendOneField at h
  cases tag with
  | none =>
    replace h : appendResolvedField fname "" 10 (-1) 'f' ty idx i acc names
        = .ok (acc', names') := h
    have hs := appendResolvedField_ok_shape fname "" 10 (-1) 'f' ty idx i acc names
      acc' names' h
    simpa [specNm] using hs
  | some tg =>
    replace h : (match parseTag tg with
        | .error _ =>
          (Except.error ResolveErr.panicked
            : Except ResolveErr (List FieldA × List String))
        | .ok (nm1, b1, p1, f1) =>
          appendResolvedField fname nm1 b1 p1 f1 ty idx i acc names)
        = .ok (acc', names') := h
    rcases hpt : parseTag tg with e | ⟨nm0, b, p, f⟩ <;> rw [hpt] at h
    · replace h : (Except.error ResolveErr.panicked
          : Except ResolveErr (List FieldA × List String)) = .ok (acc', names') := h
      exact Except.noConfusion h
    · replace h : appendResolvedField fname nm0 b p f ty idx i acc names
          = .ok (acc', names') := h
      have hname := parseTag_ok_name tg nm0 b p f hpt
      have hs := appendResolvedField_ok_shape fname nm0 b p f ty idx i acc names
        acc' names' h
      have hsp : specNm fname (some tg) = if nm0 = "" then fname else nm0 := by
        rw [specNm, ← hname]
      rw [hsp]
      exact hs

theorem appendStructFields_cons_inline (fname : String) (tag : Option String)
    (anonymous : Bool) (fs' rest : GoFields) (idx : List Nat) (i : Nat)
    (acc : List FieldA) (names : List String)
    (hc : (anonymous || hasInlineTag tag) = true) :
    appendStructFields (.cons fname tag true anonymous (.strct fs') rest) idx i acc names
      = match appendStructFields fs' (idx ++ [i]) 0 acc names with
        | .error e => .error e
        | .ok (acc', names') => appendStructFields rest idx (i + 1) acc' names' := by
  simp [appendStructFields, hc]

theorem appendStructFields_cons_plain (fname : String) (tag : Option String)
    (anonymous : Bool) (ty : GoTy) (rest : GoFields) (idx : List Nat) (i : Nat)
    (acc : List FieldA) (names : List String)
    (hng : ∀ fs', ty = .strct fs' → (anonymous || hasInlineTag tag) = true → False) :
    appendStructFields (.cons fname tag true anonymous ty rest) idx i acc names
      = match appendOneField fname tag ty idx i acc names with
        | .error e => .error e
        | .ok (acc', names') => appendStructFields rest idx (i + 1) acc' names' := by
  cases hc : anonymous || hasInlineTag tag
  · cases ty <;> simp [appendStructFields, hc]
  · cases ty <;> try simp [appendStructFields, hc]
    exact (hng _ rfl hc).elim

theorem appendStructFields_cons_unexported (fname : String) (tag : Option String)
    (anonymous : Bool) (ty : GoTy) (rest : GoFields) (idx : List Nat) (i : Nat)
    (acc : List FieldA) (names : List String) :
    appendStructFields (.cons fname tag false anonymous ty rest) idx i acc names
      = appendStructFields rest idx (i + 1) acc names := by
  cases ty <;> try simp [appendStructFields]
  cases hc : anonymous || hasInlineTag tag <;> simp [appendStructFields, hc]

theorem specResolvedNames_cons_plain (fname : String) (tag : Option String)
    (anonymous : Bool) (ty : GoTy) (rest : GoFields)
    (hng : ∀ fs', ty = .strct fs' → (anonymous || hasInlineTag tag) = true → False) :
    specResolvedNames (.cons fname tag true anonymous ty rest)
      = (if specNm fname tag = "-" then specResolvedNames rest
         else specNm fname tag :: specResolvedNames rest) := by
  cases hc : anonymous || hasInlineTag tag
  · cases ty <;> simp [specResolvedNames, hc]
  · cases ty <;> try simp [specResolvedNames, hc]
    exact (hng _ rfl hc).elim

/-- Invariant of the resolver walk: successfully appended descriptors
extend the accumulator with exactly the spec-resolved names, every
descriptor name is registered in the name set, and the emitted name
list stays duplicate-free. -/
theorem appendStructFields_spec :
    ∀ (fs : GoFields) (idx : List Nat) (i : Nat) (acc : List FieldA) (names : List String)
      (out : List FieldA) (ns : List String),
      appendStructFields fs idx i acc names = .ok (out, ns) →
      (((∀ f ∈ acc, f.name ∈ names) → (acc.map FieldA.name).Nodup →
          ((∀ f ∈ out, f.name ∈ ns) ∧ (out.map FieldA.name).Nodup
            ∧ ∀ x, x ∈ names → x ∈ ns))
        ∧ out.map FieldA.name = acc.map FieldA.name ++ specResolvedNames fs) := by
  intro fs idx i acc names
  induction fs, idx, i, acc, names using appendStructFields.induct with
  | case1 idx i acc names =>
    intro out ns h
    replace h : (Except.ok (acc, names)
        : Except ResolveErr (List FieldA × List String)) = .ok (out, ns) := h
    injection h with h
    injection h with ha hb
    subst ha
    subst hb
    refine ⟨fun hmem hnd => ⟨hmem, hnd, fun x hx => hx⟩, by simp [specResolvedNames]⟩
  | case2 fname tag anonymous rest idx i acc names fs' hc e herr ih1 =>
    intro out ns h
    rw [appendStructFields_cons_inline fname tag anonymous fs' rest idx i acc names hc,
      herr] at h
    exact Except.noConfusion h
  | case3 fname tag anonymous rest idx i acc names fs' hc acc' names' hok ih1 ih2 =>
    intro out ns h
    rw [appendStructFields_cons_inline fname tag anonymous fs' rest idx i acc names hc,
      hok] at h
    replace h : appendStructFields rest idx (i + 1) acc' names' = .ok (out, ns) := h
    have H1 := ih1 acc' names' hok
    have H2 := ih2 out ns h
    constructor
    · intro hmem hnd
      obtain ⟨m1, n1, s1⟩ := H1.1 hmem hnd
      obtain ⟨m2, n2, s2⟩ := H2.1 m1 n1
      exact ⟨m2, n2, fun x hx => s2 x (s1 x hx)⟩
    · rw [H2.2, H1.2]
      have hspec : specResolvedNames (.cons fname tag true anonymous (.strct fs') rest)
          = specResolvedNames fs' ++ specResolvedNames rest := by
        simp [specResolvedNames, hc]
      rw [hspec, List.append_assoc]
  | case4 fname tag anonymous ty rest idx i acc names e herr hng =>
    intro out ns h
    rw [appendStructFields_cons_plain fname tag anonymous ty rest idx i acc names hng,
      herr] at h
    exact Except.noConfusion h
  | case5 fname tag anonymous ty rest idx i acc names acc' names' hok hng ih =>
    intro out ns h
    rw [appendStructFields_cons_plain fname tag anonymous ty rest idx i acc names hng,
      hok] at h
    replace h : appendStructFields rest idx (i + 1) acc' names' = .ok (out, ns) := h
    have H2 := ih out ns h
    have hspec := specResolvedNames_cons_plain fname tag anonymous ty rest hng
    rcases appendOneField_ok_shape fname tag ty idx i acc names acc' names' hok with
      ⟨hdash, haeq, hneq⟩ | ⟨hdash, hnotin, ⟨codec, haeq⟩, hneq⟩
    · subst haeq
      subst hneq
      refine ⟨H2.1, ?_⟩
      rw [H2.2, hspec, if_pos hdash]
    · subst haeq
      subst hneq
      constructor
      · intro hmem hnd
        have hmem2 : ∀ f ∈ acc ++ [(⟨idx ++ [i], specNm fname tag, codec, ty⟩ : FieldA)],
            f.name ∈ names ++ [specNm fname tag] := by
          intro f hf
          rcases List.mem_append.mp hf with hfa | hfn
          · exact List.mem_append.mpr (Or.inl (hmem f hfa))
          · have : f = ⟨idx ++ [i], specNm fname tag, codec, ty⟩ := by simpa using hfn
            subst this
            simp
        have hnd2 : ((acc ++ [(⟨idx ++ [i], specNm fname tag, codec, ty⟩ : FieldA)]).map
            FieldA.name).Nodup := by
          rw [List.map_append]
          refine List.Nodup.append hnd (by simp) ?_
          intro a ha hb
          have hanm : a = specNm fname tag := by simpa using hb
          subst hanm
          rcases List.mem_map.mp ha with ⟨f, hf, hfe⟩
          exact hnotin (hfe ▸ hmem f hf)
        obtain ⟨m2, n2, s2⟩ := H2.1 hmem2 hnd2
        exact ⟨m2, n2, fun x hx => s2 x (List.mem_append.mpr (Or.inl hx))⟩
      · rw [H2.2, hspec, if_neg hdash, List.map_append]
        simp
  | case6 fname tag exported anonymous ty rest idx i acc names hexp ih =>
    intro out ns h
    have hef : exported = false := by
      cases exported
      · rfl
      · exact absurd rfl hexp
    subst hef
    rw [appendStructFields_cons_unexported] at h
    have H := ih out ns h
    refine ⟨H.1, ?_⟩
    rw [H.2]
    have hur : specResolvedNames (.cons fname tag false anonymous ty rest)
        = specResolvedNames rest := by
      cases ty <;> try simp [specResolvedNames]
      cases hc : anonymous || hasInlineTag tag <;> simp [specResolvedNames, hc]
    rw [hur]

theorem dupName_none_iff :
    ∀ (l seen : List String), dupName l seen = none ↔ (l.Nodup ∧ ∀ x ∈ l, x ∉ seen) := by
  intro l
  induction l with
  | nil => intro seen; simp [dupName]
  | cons a rest ih =>
    intro seen
    by_cases hm : seen.contains a
    · rw [dupName, if_pos hm]
      constructor
      · intro hc
        exact Option.noConfusion hc
      · rintro ⟨hnd, hall⟩
        exact absurd (List.elem_iff.mp hm) (hall a (List.mem_cons_self a rest))
    · rw [dupName, if_neg hm]
      rw [ih (a :: seen)]
      constructor
      · rintro ⟨hnd, hall⟩
        refine ⟨List.nodup_cons.mpr ⟨?_, hnd⟩, ?_⟩
        · intro hmem
          exact hall a hmem (List.mem_cons_self a seen)
        · intro x hx
          rcases List.mem_cons.mp hx with hxa | hxr
          · subst hxa
            intro hxs
            exact hm (List.elem_iff.mpr hxs)
          · intro hxs
            exact hall x hxr (List.mem_cons_of_mem a hxs)
      · rintro ⟨hnd, hall⟩
        obtain ⟨hna, hndr⟩ := List.nodup_cons.mp hnd
        refine ⟨hndr, ?_⟩
        intro x hx hxs
        rcases List.mem_cons.mp hxs with hxa | hxr
        · subst hxa
          exact hna hx
        · exact hall x (List.mem_cons_of_mem a hx) hxr

/-- C5: resolving a record type in which two fields map to the same
resolved column name fails (equivalently, any successful resolution has
pairwise-distinct descriptor names -- exhibited on the concrete
duplicate-"a" type), and binding a header with a repeated column name
fails, both in headerIndices and in the decoder's mapHeader; the two
checks are distinct and both are performed. -/
theorem claim5_duplicate_name_detection :
    (∀ (t : GoTy) (out : List FieldA),
        structFieldsOf t = .ok out → (out.map FieldA.name).Nodup)
    ∧ structFieldsOf (.strct fieldsDup) = .error (.dupField "a")
    ∧ (∀ (header : List String) (fields : List FieldA),
        (∃ pairs, headerIndices header fields = .ok pairs) ↔ header.Nodup)
    ∧ decodeFuncB fieldsBS ⟨[], ["a", "a"], fun _ v => v, false, false, false⟩
        = .error (.dupHeader "a") := by
  refine ⟨?_, rfl, ?_, rfl⟩
  · intro t out h
    cases t <;> try exact Except.noConfusion h
    case strct fs =>
      replace h : (appendStructFields fs [] 0 [] []).map
          (fun x : List FieldA × List String => x.1) = .ok out := h
      rcases happ : appendStructFields fs [] 0 [] [] with e | ⟨out', ns⟩ <;> rw [happ] at h
      · exact Except.noConfusion h
      · replace h : (Except.ok out' : Except ResolveErr (List FieldA)) = .ok out := h
        injection h with h
        subst h
        exact ((appendStructFields_spec fs [] 0 [] [] out' ns happ).1
          (by simp) (by simp)).2.1
  · intro header fields
    constructor
    · rintro ⟨pairs, hp⟩
      unfold headerIndices at hp
      rcases hdn : dupName header [] with _ | x <;> rw [hdn] at hp
      · exact ((dupName_none_iff header []).mp hdn).1
      · exact Except.noConfusion hp
    · intro hnd
      have hdn : dupName header [] = none :=
        (dupName_none_iff header []).mpr ⟨hnd, by simp⟩
      refine ⟨headerPairs fields 0 header, ?_⟩
      show (match dupName header [] with
        | some h => (Except.error (.dupHeader h) : Except BindErr (List Nat))
        | none => .ok (headerPairs fields 0 header)) = .ok (headerPairs fields 0 header)
      rw [hdn]

/-- Witness for C5: the movie record type resolves with distinct names
and a duplicate-free header binds. -/
theorem claim5_witness :
    ((([⟨[0], "movie", Conv.plain .strC, GoTy.str⟩,
        ⟨[1], "year", Conv.plain (.intC 64 10), GoTy.intT⟩] : List FieldA).map
          FieldA.name).Nodup)
    ∧ (∃ pairs, headerIndices ["x", "a"] [] = .ok pairs) := by
  constructor
  · exact claim5_duplicate_name_detection.1 (.strct fieldsMovie) _ rfl
  · exact (claim5_duplicate_name_detection.2.2.1 ["x", "a"] []).mpr (by decide)

/-- C7: for every record type that resolves successfully, Header on a
pointer to a slice of that type returns exactly the resolved descriptor
column names in descriptor order, and those names are the
specification's declaration-order walk: inline/embedded sub-structures
flattened in place, excluded fields absent, tag-supplied names in place
of field identifiers. -/
theorem claim7_header_returns_descriptor_names :
    ∀ (fs : GoFields) (out : List FieldA) (isNil : Bool),
      structFieldsOf (.strct fs) = .ok out →
      Header (some (.ptr (.slice (.strct fs)), isNil)) = .ok (out.map FieldA.name)
      ∧ out.map FieldA.name = specResolvedNames fs := by
  intro fs out isNil h
  constructor
  · show headerOf (innerTypeOf (.ptr (.slice (.strct fs))) [.kPtr, .kSlice, .kStrct])
        = .ok (out.map FieldA.name)
    have hit : innerTypeOf (.ptr (.slice (.strct fs))) [.kPtr, .kSlice, .kStrct]
        = some (.strct fs) := rfl
    rw [hit]
    show (structFieldsOf (.strct fs)).map (List.map FieldA.name) = .ok (out.map FieldA.name)
    rw [h]
    rfl
  · replace h : (appendStructFields fs [] 0 [] []).map
        (fun x : List FieldA × List String => x.1) = .ok out := h
    rcases happ : appendStructFields fs [] 0 [] [] with e | ⟨out', ns⟩ <;> rw [happ] at h
    · exact Except.noConfusion h
    · replace h : (Except.ok out' : Except ResolveErr (List FieldA)) = .ok out := h
      injection h with h
      subst h
      have hn := (appendStructFields_spec fs [] 0 [] [] out' ns happ).2
      simpa using hn

/-- Witness for C7: the record type with an embedded struct, an inline
struct, an excluded field and a renamed field yields the header
A, B, c. -/
theorem claim7_witness :
    Header (some (.ptr (.slice (.strct fieldsEmb)), false)) = .ok ["A", "B", "c"]
    ∧ (["A", "B", "c"] : List String) = specResolvedNames fieldsEmb := by
  have h := claim7_header_returns_descriptor_names fieldsEmb
    [⟨[0, 0], "A", .plain (.intC 64 10), .intT⟩,
     ⟨[1, 0], "B", .plain (.intC 64 10), .intT⟩,
     ⟨[3], "c", .plain (.intC 64 10), .intT⟩] false rfl
  exact ⟨h.1, h.2⟩

/-- Witness for C6: decoding a non-empty numeral through one pointer
level allocates and delegates to the inner integer converter. -/
theorem claim6_witness :
    convDecode (.ptrC (.intC 64 10)) (nestPtr 1 .intT) .ptrNil "7"
      = (baseDecode (.intC 64 10) "7").map (nestSome 1) :=
  claim6_ptrCodec_optional_semantics.2.1 (.intC 64 10) .intT .ptrNil "7" 0
    (fun _ h => GoTy.noConfusion h) (by decide)

/-- Counterexample to the last clause of C3: with neither strictness
rule active, the short row "true" against the two-bool record type does
not succeed with a zero-valued second field -- the missing field decodes
the empty string through the bool converter, which is a syntax error
that aborts the decode.  Only fields whose converter accepts "" (string,
byte slice, pointer) are left zero-valued. -/
theorem claim3_counterexample :
    decodeFuncB fieldsBB
        ⟨[⟨["true"], [(1, 1)]⟩], ["A", "B"], fun _ v => v, false, false, false⟩
      = .error (.rowErr ⟨1, 1, .num .synErr⟩) := rfl

/-- C3 (amended): with the "disallow unknown fields" rule active, a row
with more fields than the descriptor set aborts with a field-count error
positioned at the row start (field index 0); with the "disallow short
fields" rule active, a row with fewer fields than the descriptor set
aborts with the same error at the row start; with neither rule active a
short row succeeds with the missing fields zero-valued only when the
missing fields accept the empty string, as the record with a trailing
string field does. -/
theorem claim3_field_count_rules :
    (∀ (d : DecoderB) (fields : List FieldB) (ftys : List GoTy) (zrec : List GoVal)
        (pairs : List Nat) (r : RowB) (rest : List RowB)
        (out : List (List GoVal)) (errs : List DecodingError),
        d.noUnknownFields = true → fields.length < r.fields.length →
        d.skipInvalidRows = false →
        decodeLoopB d fields ftys zrec pairs (r :: rest) out errs
          = .error (.rowErr (newDecodingError r 0 .fieldCount)))
    ∧ (∀ (d : DecoderB) (fields : List FieldB) (ftys : List GoTy) (zrec : List GoVal)
        (pairs : List Nat) (r : RowB) (rest : List RowB)
        (out : List (List GoVal)) (errs : List DecodingError),
        d.noShortFields = true → r.fields.length < fields.length →
        d.skipInvalidRows = false →
        decodeLoopB d fields ftys zrec pairs (r :: rest) out errs
          = .error (.rowErr (newDecodingError r 0 .fieldCount)))
    ∧ decodeFuncB fieldsBS
        ⟨[⟨["true"], [(1, 1)]⟩], ["B", "S"], fun _ v => v, false, false, false⟩
        = .ok ([[.boolV true, .strV ""]], []) := by
  refine ⟨?_, ?_, rfl⟩
  · intro d fields ftys zrec pairs r rest out errs h1 h2 hskip
    simp [decodeLoopB, h1, h2, hskip]
  · intro d fields ftys zrec pairs r rest out errs h1 h2 hskip
    have hnot : ¬ fields.length < r.fields.length := by omega
    simp [decodeLoopB, h1, h2, hskip, hnot]

/-- Witness for C3: a one-field row against an empty descriptor set with
unknown fields disallowed fails with the field-count error at the
position the reader reports for the row start. -/
theorem claim3_witness :
    decodeLoopB ⟨[], [], fun _ v => v, false, true, false⟩ [] [] [] []
        [⟨["x"], [(3, 7)]⟩] [] []
      = .error (.rowErr ⟨3, 7, .fieldCount⟩) :=
  claim3_field_count_rules.1 ⟨[], [], fun _ v => v, false, true, false⟩ [] [] [] []
    ⟨["x"], [(3, 7)]⟩ [] [] [] rfl (by decide) rfl

/-- C4: a per-field conversion failure aborts the whole decode by
default, with the error carrying the position the reader reports for the
offending (clamped) field; in skip-invalid-rows mode the error is
instead appended to the accumulated list, the row is discarded and the
loop continues with the next row; concretely, the input
2,hello / false,world against the bool-string record in skip mode
yields exactly one decoded record and one accumulated error positioned
at the first row. -/
theorem claim4_invalid_row_handling :
    (∀ (d : DecoderB) (fields : List FieldB) (ftys : List GoTy) (zrec : List GoVal)
        (pairs : List Nat) (r : RowB) (rest : List RowB)
        (out : List (List GoVal)) (errs : List DecodingError) (fid : Nat) (e : DecErrB),
        d.noUnknownFields = false → d.noShortFields = false →
        applyPairsB d.cleanerFunc ftys fields r.fields pairs zrec = .error (fid, e) →
        (d.skipInvalidRows = false →
          decodeLoopB d fields ftys zrec pairs (r :: rest) out errs
            = .error (.rowErr (newDecodingError r fid e)))
        ∧ (d.skipInvalidRows = true →
          decodeLoopB d fields ftys zrec pairs (r :: rest) out errs
            = decodeLoopB d fields ftys zrec pairs rest out
                (errs ++ [newDecodingError r fid e])))
    ∧ decodeFuncB fieldsBS
        ⟨[⟨["2", "hello"], [(1, 1), (1, 3)]⟩, ⟨["false", "world"], [(2, 1), (2, 7)]⟩],
          ["B", "S"], fun _ v => v, true, false, false⟩
        = .ok ([[.boolV false, .strV "world"]], [⟨1, 1, .num .synErr⟩]) := by
  refine ⟨?_, rfl⟩
  intro d fields ftys zrec pairs r rest out errs fid e h1 h2 happ
  constructor
  · intro hskip
    simp [decodeLoopB, h1, h2, happ, hskip]
  · intro hskip
    simp [decodeLoopB, h1, h2, happ, hskip]

/-- Witness for C4: a bool field reading the text 2 aborts the decode
with the syntax error at the reported position of the field. -/
theorem claim4_witness :
    decodeLoopB ⟨[], [], fun _ v => v, false, false, false⟩
        [⟨[0], .kbBool, "B"⟩] [.bool] [.boolV false] [0, 0] [⟨["2"], [(1, 1)]⟩] [] []
      = .error (.rowErr ⟨1, 1, .num .synErr⟩) :=
  (claim4_invalid_row_handling.1 ⟨[], [], fun _ v => v, false, false, false⟩
      [⟨[0], .kbBool, "B"⟩] [.bool] [.boolV false] [0, 0] ⟨["2"], [(1, 1)]⟩ [] [] []
      0 (.num .synErr) rfl rfl rfl).1 rfl

end Csvbuddy
